import Mathlib

/-!
# flameFoam: the non-unity-Lewis ETFC diffusivity closure

A shallow embedding of
`src/ThermopysicalTransportModels/nonUnityLewisViscosityETFCDiffusivity`
(`nonUnityLewisViscosityETFCDiffusivity.H` and `.C`).

Conventions of the embedding.

* The host's `scalar` is an ordered field `α`; the theorems that need the
  exponential take `α = ℝ` and `Foam::exp = Real.exp`.  Arithmetic is exact, and
  division is the field's total division (a quotient by zero is zero); where a
  divisor can be zero the closure is evaluated with checked quotients
  (`checkedDiv`, `DEffChecked`), which return no value at a zero divisor.
* `Foam::exp` and the host constant `SMALL` are parameters of the definitions.
* A field is addressed by label: `scalarField` is a map from labels to scalars,
  a `volScalarField` carries its internal (cell) field and one boundary field
  per patch, a `surfaceScalarField` is a `scalarField` over face labels.
* The host's operators and collaborators (thermo, momentum transport, the
  finite-volume operators, the dictionary) are data handed to the model.
-/

namespace Foam

/-! ## Fields and their pointwise algebra -/

/-- The host's `Field<scalar>`: scalars addressed by label. -/
@[ext]
structure scalarField (α : Type) where
  /-- Value at a label. -/
  val : Nat → α

namespace scalarField

variable {α : Type}

/-- Pointwise image of a field. -/
def map (f : α → α) (a : scalarField α) : scalarField α :=
  ⟨fun i => f (a.val i)⟩

/-- Pointwise combination of two fields, label by label of the first. -/
def map₂ (f : α → α → α) (a b : scalarField α) : scalarField α :=
  ⟨fun i => f (a.val i) (b.val i)⟩

/-- The uniform field. -/
def uniform (x : α) : scalarField α :=
  ⟨fun _ => x⟩

instance [Add α] : Add (scalarField α) := ⟨map₂ (· + ·)⟩
instance [Sub α] : Sub (scalarField α) := ⟨map₂ (· - ·)⟩
instance [Mul α] : Mul (scalarField α) := ⟨map₂ (· * ·)⟩
instance [Div α] : Div (scalarField α) := ⟨map₂ (· / ·)⟩
instance [Neg α] : Neg (scalarField α) := ⟨map (fun x => -x)⟩
instance [Add α] : HAdd α (scalarField α) (scalarField α) := ⟨fun s a => map (fun x => s + x) a⟩
instance [Sub α] : HSub α (scalarField α) (scalarField α) := ⟨fun s a => map (fun x => s - x) a⟩
instance [Mul α] : HMul α (scalarField α) (scalarField α) := ⟨fun s a => map (fun x => s * x) a⟩
instance [Mul α] : HMul (scalarField α) α (scalarField α) := ⟨fun a s => map (fun x => x * s) a⟩
instance [Div α] : HDiv α (scalarField α) (scalarField α) := ⟨fun s a => map (fun x => s / x) a⟩
instance [Div α] : HDiv (scalarField α) α (scalarField α) := ⟨fun a s => map (fun x => x / s) a⟩

/-- The host's `max(field, scalar)`. -/
def max [Max α] (a : scalarField α) (s : α) : scalarField α :=
  map (fun x => Max.max x s) a

/-- The host's `exp(field)`, over the scalar exponential `exp`. -/
def exp (exp : α → α) (a : scalarField α) : scalarField α :=
  map exp a

end scalarField

/-- The host's `volScalarField`: the internal field by cell label and the
boundary field by patch label and patch-face label. -/
@[ext]
structure volScalarField (α : Type) where
  /-- Cell values. -/
  internalField : scalarField α
  /-- Patch values. -/
  boundaryField : Nat → scalarField α

namespace volScalarField

variable {α : Type}

/-- Pointwise image, on the cells and on every patch. -/
def map (f : α → α) (a : volScalarField α) : volScalarField α :=
  ⟨a.internalField.map f, fun p => (a.boundaryField p).map f⟩

/-- Pointwise combination, cells with cells and each patch with itself. -/
def map₂ (f : α → α → α) (a b : volScalarField α) : volScalarField α :=
  ⟨a.internalField.map₂ f b.internalField,
    fun p => (a.boundaryField p).map₂ f (b.boundaryField p)⟩

/-- The uniform field. -/
def uniform (x : α) : volScalarField α :=
  ⟨scalarField.uniform x, fun _ => scalarField.uniform x⟩

instance [Add α] : Add (volScalarField α) := ⟨map₂ (· + ·)⟩
instance [Sub α] : Sub (volScalarField α) := ⟨map₂ (· - ·)⟩
instance [Mul α] : Mul (volScalarField α) := ⟨map₂ (· * ·)⟩
instance [Div α] : Div (volScalarField α) := ⟨map₂ (· / ·)⟩
instance [Neg α] : Neg (volScalarField α) := ⟨map (fun x => -x)⟩
instance [Add α] : HAdd α (volScalarField α) (volScalarField α) := ⟨fun s a => map (fun x => s + x) a⟩
instance [Sub α] : HSub α (volScalarField α) (volScalarField α) := ⟨fun s a => map (fun x => s - x) a⟩
instance [Mul α] : HMul α (volScalarField α) (volScalarField α) := ⟨fun s a => map (fun x => s * x) a⟩
instance [Mul α] : HMul (volScalarField α) α (volScalarField α) := ⟨fun a s => map (fun x => x * s) a⟩
instance [Div α] : HDiv α (volScalarField α) (volScalarField α) := ⟨fun s a => map (fun x => s / x) a⟩
instance [Div α] : HDiv (volScalarField α) α (volScalarField α) := ⟨fun a s => map (fun x => x / s) a⟩

/-- The host's `max(field, scalar)`. -/
def max [Max α] (a : volScalarField α) (s : α) : volScalarField α :=
  map (fun x => Max.max x s) a

/-- The host's `exp(field)`, over the scalar exponential `exp`. -/
def exp (exp : α → α) (a : volScalarField α) : volScalarField α :=
  map exp a

end volScalarField

/-- The host's `surfaceScalarField`: one scalar per face label. -/
abbrev surfaceScalarField (α : Type) := scalarField α

/-! ## Collaborators of the model -/

/-- What the model reads from its thermo collaborator (`this->thermo()`). -/
structure thermoModel (α : Type) where
  /-- Density `rho()`. -/
  rho : volScalarField α
  /-- Temperature `T()`. -/
  T : volScalarField α
  /-- Pressure `p()`. -/
  p : volScalarField α
  /-- Species mass fractions `Y()`. -/
  Y : List (volScalarField α)
  /-- Sensible enthalpy of species `i` at a pressure and temperature, `hsi(i, p, T)`. -/
  hsi : Nat → volScalarField α → volScalarField α → volScalarField α

/-- The patch density `thermo().rho(patchi)`. -/
def thermoModel.rhoPatch {α : Type} (thermo : thermoModel α) (patchi : Nat) : scalarField α :=
  thermo.rho.boundaryField patchi

/-- What the model reads from its momentum transport collaborator
(`this->momentumTransport()`). -/
structure momentumTransportModel (α : Type) where
  /-- Eddy viscosity `nut()`. -/
  nut : volScalarField α
  /-- Turbulent kinetic energy `k()`. -/
  k : volScalarField α
  /-- The value of `mesh().time()`, the current time as a dimensioned scalar. -/
  time : α

/-- The patch eddy viscosity `momentumTransport().nut(patchi)`. -/
def momentumTransportModel.nutPatch {α : Type} (mt : momentumTransportModel α)
    (patchi : Nat) : scalarField α :=
  mt.nut.boundaryField patchi

/-- The host's `dictionary`, as far as scalar coefficients go: keyword and value
entries. -/
abbrev dictionary (α : Type) := List (String × α)

/-- The host's `dictionary::lookup` of a scalar entry; `none` stands for the
fatal error the host raises when the keyword is not there. -/
def dictionary.lookup {α : Type} (dict : dictionary α) (keyword : String) : Option α :=
  List.lookup keyword dict

/-- The host's `dictionary::lookupOrDefault`. -/
def dictionary.lookupOrDefault {α : Type} (dict : dictionary α) (keyword : String)
    (deflt : α) : α :=
  (List.lookup keyword dict).getD deflt

/-- What the model inherits from its base class `unityLewisEddyDiffusivity`:
the two collaborators, the coefficient dictionary `coeffDict_`, the turbulent
Prandtl number `Prt_`, the phase fraction `alpha()`, the effective conductivity
`kappaEff()` and the effective energy diffusivity `alphaEff()`. -/
structure unityLewisEddyDiffusivity (α : Type) where
  /-- The coefficient dictionary. -/
  coeffDict_ : dictionary α
  /-- Turbulent Prandtl number. -/
  Prt_ : α
  /-- The momentum transport model. -/
  momentumTransport : momentumTransportModel α
  /-- The thermo model. -/
  thermo : thermoModel α
  /-- Phase fraction `alpha()`. -/
  alpha : volScalarField α
  /-- Effective thermal conductivity `kappaEff()`. -/
  kappaEff : volScalarField α
  /-- Effective diffusivity of the energy `alphaEff()`. -/
  alphaEff : volScalarField α

/-! ## The host's finite-volume layer -/

/-- The host's `fvScalarMatrix`, as far as the model touches it: the action of
the implicit coefficients on the cell values of the solved field, and the source
(the host stores a source term `su` as `-V su`, `V` the cell volumes). -/
@[ext]
structure fvScalarMatrix (α : Type) where
  /-- Action of the implicit coefficients on cell values. -/
  coeffs : scalarField α → scalarField α
  /-- The stored source. -/
  source : scalarField α

/-- The host's mesh and finite-volume operators, handed to the model as data. -/
structure fvOperators (α : Type) where
  /-- Number of cells. -/
  nCells : Nat
  /-- Number of faces. -/
  nFaces : Nat
  /-- The cell a face belongs to. -/
  owner : Nat → Nat
  /-- The cell on the other side of a face. -/
  neighbour : Nat → Nat
  /-- Cell volumes `mesh.V()`. -/
  V : scalarField α
  /-- Face area magnitudes `mesh.magSf()`. -/
  magSf : surfaceScalarField α
  /-- Face interpolation `fvc::interpolate`. -/
  interpolate : volScalarField α → surfaceScalarField α
  /-- Surface-normal gradient `fvc::snGrad`. -/
  snGrad : volScalarField α → surfaceScalarField α
  /-- Divergence of a face flux `fvc::div`. -/
  div : surfaceScalarField α → volScalarField α
  /-- Explicit Laplacian `fvc::laplacian(gamma, vf)`. -/
  laplacian : volScalarField α → volScalarField α → volScalarField α
  /-- Implicit Laplacian correction `fvm::laplacianCorrection(gamma, vf)`. -/
  laplacianCorrection : volScalarField α → volScalarField α → fvScalarMatrix α

namespace fvOperators

variable {α : Type} [LinearOrderedField α]

/-- The host's `fvm::Su(su, vf)`: no implicit part, and the source `-V su`. -/
def Su (ops : fvOperators α) (su : volScalarField α) (_vf : volScalarField α) :
    fvScalarMatrix α :=
  ⟨fun _ => scalarField.uniform 0, scalarField.uniform 0 - ops.V * su.internalField⟩

/-- The host's `fvMatrix::operator-=(const fvMatrix&)`. -/
def subMatrix (_ops : fvOperators α) (A B : fvScalarMatrix α) : fvScalarMatrix α :=
  ⟨fun psi => A.coeffs psi - B.coeffs psi, A.source - B.source⟩

/-- The host's `fvMatrix::operator-=(const volScalarField&)`: the source gains
`V su`. -/
def subField (ops : fvOperators α) (A : fvScalarMatrix α) (su : volScalarField α) :
    fvScalarMatrix α :=
  ⟨A.coeffs, A.source + ops.V * su.internalField⟩

/-- The host's `M & psi`: the source term a matrix stands for at the field
`psi`, `(A psi - source) / V`. -/
def apply (ops : fvOperators α) (A : fvScalarMatrix α) (psi : volScalarField α) :
    scalarField α :=
  (A.coeffs psi.internalField - A.source) / ops.V

/-- The volume integral of the source term a matrix stands for at `psi`: the
volume-weighted sum over the cells. -/
def volIntegral (ops : fvOperators α) (A : fvScalarMatrix α) (psi : volScalarField α) : α :=
  ∑ celli in Finset.range ops.nCells, ops.V.val celli * (ops.apply A psi).val celli

/-- The divergence is additive over differences of fluxes. -/
def DivAdditive (ops : fvOperators α) : Prop :=
  ∀ a b : surfaceScalarField α,
    (ops.div (a - b)).internalField = (ops.div a).internalField - (ops.div b).internalField

/-- The explicit Laplacian is the divergence of the interpolated coefficient
times the surface-normal gradient times the face area. -/
def GaussLaplacian (ops : fvOperators α) : Prop :=
  ∀ gamma vf : volScalarField α,
    (ops.laplacian gamma vf).internalField
      = (ops.div (ops.interpolate gamma * ops.snGrad vf * ops.magSf)).internalField

/-- A closed mesh: every face lies between two cells of the mesh, its flux
leaves the owner and enters the neighbour, no other face carries a flux, and the
cells have non-zero volume. -/
def ClosedMesh (ops : fvOperators α) : Prop :=
  (∀ facei, facei < ops.nFaces → ops.owner facei < ops.nCells ∧ ops.neighbour facei < ops.nCells)
  ∧ (∀ celli, celli < ops.nCells → ops.V.val celli ≠ 0)
  ∧ ∀ (phi : surfaceScalarField α) (celli : Nat), celli < ops.nCells →
      ops.V.val celli * (ops.div phi).internalField.val celli
        = ∑ facei in Finset.range ops.nFaces,
            ((if ops.owner facei = celli then phi.val facei else 0)
              - (if ops.neighbour facei = celli then phi.val facei else 0))

/-- The implicit Laplacian correction stands for no source at a uniform field. -/
def CorrectionVanishesOnUniform (ops : fvOperators α) : Prop :=
  ∀ (gamma : volScalarField α) (x : α) (celli : Nat),
    ((ops.laplacianCorrection gamma (volScalarField.uniform x)).coeffs
        (volScalarField.uniform x).internalField).val celli
      = (ops.laplacianCorrection gamma (volScalarField.uniform x)).source.val celli

end fvOperators

/-! ## The model -/

/-- The class `nonUnityLewisViscosityETFCDiffusivity`: its base and the three
model coefficients `Sct_`, `alpha_u_` and `Le_`. -/
structure nonUnityLewisViscosityETFCDiffusivity (α : Type) extends
    unityLewisEddyDiffusivity α where
  /-- Turbulent Schmidt number. -/
  Sct_ : α
  /-- Diffusivity scale `alpha_u`. -/
  alpha_u_ : α
  /-- Lewis number. -/
  Le_ : α

namespace nonUnityLewisViscosityETFCDiffusivity

variable {α : Type} [LinearOrderedField α]

/-- The overload `DEff(const volScalarField& Yi)`, lines 126-144 of the header. -/
def DEff (exp : α → α) (SMALL : α) (self : nonUnityLewisViscosityETFCDiffusivity α)
    (_Yi : volScalarField α) : volScalarField α :=
  self.thermo.rho * (
    self.alpha_u_ / self.Le_ +
    self.momentumTransport.nut / self.Sct_ *
    (
      (1 : α) - volScalarField.exp exp (
        (-1 : α) / volScalarField.max (
          (1.5 : α) * self.momentumTransport.nut /
          (self.Sct_ * self.momentumTransport.k * self.momentumTransport.time)
        ) SMALL
      )
    )
  )

/-- The overload `DEff()`, lines 148-166 of the header. -/
def DEff0 (exp : α → α) (SMALL : α) (self : nonUnityLewisViscosityETFCDiffusivity α) :
    volScalarField α :=
  self.thermo.rho * (
    self.alpha_u_ / self.Le_ +
    self.momentumTransport.nut / self.Sct_ *
    (
      (1 : α) - volScalarField.exp exp (
        (-1 : α) / volScalarField.max (
          (1.5 : α) * self.momentumTransport.nut /
          (self.Sct_ * self.momentumTransport.k * self.momentumTransport.time)
        ) SMALL
      )
    )
  )

/-- The overload `DEff(const volScalarField& Yi, const label patchi)`, lines
170-189 of the header.  `rho(patchi)` and `nut(patchi)` are patch fields;
`k()` is the whole `volScalarField`, and the quotient of a patch field by it is
the host's `Field` quotient, which reads the divisor as its `Field` base: the
internal field, at the label of the patch face. -/
def DEffPatch (exp : α → α) (SMALL : α) (self : nonUnityLewisViscosityETFCDiffusivity α)
    (_Yi : volScalarField α) (patchi : Nat) : scalarField α :=
  self.thermo.rhoPatch patchi * (
    self.alpha_u_ / self.Le_ +
    self.momentumTransport.nutPatch patchi /
    self.Sct_ * (
      (1 : α) - scalarField.exp exp (
        (-1 : α) / scalarField.max ((1.5 : α) * self.momentumTransport.nutPatch patchi / (
          self.Sct_ * self.momentumTransport.k * self.momentumTransport.time
          ).internalField
        ) SMALL
      )
    )
  )

/-- The member `q()`, lines 91-144 of the source file. -/
def q (exp : α → α) (SMALL : α) (ops : fvOperators α)
    (self : nonUnityLewisViscosityETFCDiffusivity α) : surfaceScalarField α :=
  let tmpq : surfaceScalarField α :=
    (-ops.interpolate (self.alpha * self.kappaEff)) * ops.snGrad self.thermo.T
  let Y := self.thermo.Y
  if Y.length ≠ 0 then
    let hGradY : surfaceScalarField α :=
      Y.enum.foldl
        (fun hGradY iY =>
          let hi := self.thermo.hsi iY.1 self.thermo.p self.thermo.T
          hGradY + ops.interpolate hi * ops.snGrad iY.2)
        (scalarField.uniform 0)
    tmpq - ops.interpolate (self.alpha * self.DEff0 exp SMALL) * hGradY
  else
    tmpq

/-- The member `divq(he)`, lines 147-201 of the source file. -/
def divq (exp : α → α) (SMALL : α) (ops : fvOperators α)
    (self : nonUnityLewisViscosityETFCDiffusivity α) (he : volScalarField α) :
    fvScalarMatrix α :=
  let tmpDivq : fvScalarMatrix α :=
    ops.Su (-ops.laplacian (self.alpha * self.kappaEff) self.thermo.T) he
  let Y := self.thermo.Y
  let tmpDivq := ops.subMatrix tmpDivq (ops.laplacianCorrection (self.alpha * self.alphaEff) he)
  let hGradY : surfaceScalarField α :=
    Y.enum.foldl
      (fun hGradY iY =>
        let hi := self.thermo.hsi iY.1 self.thermo.p self.thermo.T
        hGradY + ops.interpolate hi * ops.snGrad iY.2)
      (scalarField.uniform 0)
  ops.subField tmpDivq
    (ops.div (ops.interpolate (self.alpha * self.DEff0 exp SMALL) * hGradY * ops.magSf))

/-- The run-time type name `TypeName("nonUnityLewisViscosityETFCDiffusivity")`. -/
def typeName : String := "nonUnityLewisViscosityETFCDiffusivity"

/-- The constructor, lines 42-63 of the source file.  The base class is built
first, by the host's constructor `baseNew` called with the type name, the two
collaborators and `false` (do not default `Prt`); then `Sct_`, `alpha_u_` and
`Le_` are looked up in `coeffDict_`.  `none` stands for the host's fatal error;
the closing `printCoeffs` only prints. -/
def New
    (baseNew : String → momentumTransportModel α → thermoModel α → Bool →
      Option (unityLewisEddyDiffusivity α))
    (momentumTransport : momentumTransportModel α) (thermo : thermoModel α) :
    Option (nonUnityLewisViscosityETFCDiffusivity α) := do
  let base ← baseNew typeName momentumTransport thermo false
  let Sct ← base.coeffDict_.lookup "Sct"
  let alpha_u ← base.coeffDict_.lookup "alpha_u"
  let Le ← base.coeffDict_.lookup "Le"
  pure { tounityLewisEddyDiffusivity := base, Sct_ := Sct, alpha_u_ := alpha_u, Le_ := Le }

/-- The member `read()`, lines 68-88 of the source file.  `baseRead` is the
base class's `read()`: it returns its verdict and the base as it leaves it.
Each `dimensionedScalar::read` looks its keyword up in `coeffDict()`; `none`
stands for the host's fatal lookup error. -/
def read
    (baseRead : unityLewisEddyDiffusivity α → Bool × unityLewisEddyDiffusivity α)
    (self : nonUnityLewisViscosityETFCDiffusivity α) :
    Option (Bool × nonUnityLewisViscosityETFCDiffusivity α) :=
  let r := baseRead self.tounityLewisEddyDiffusivity
  if r.1 then do
    let Sct ← r.2.coeffDict_.lookup "Sct"
    let alpha_u ← r.2.coeffDict_.lookup "alpha_u"
    let Le ← r.2.coeffDict_.lookup "Le"
    pure (true,
      { tounityLewisEddyDiffusivity := r.2, Sct_ := Sct, alpha_u_ := alpha_u, Le_ := Le })
  else
    pure (false, { self with tounityLewisEddyDiffusivity := r.2 })

end nonUnityLewisViscosityETFCDiffusivity

/-- The closure as the specification words it, for one set of local values:
density times the sum of `alpha_u / Le` and of `nut / Sct` times
`1 - exp (-1 / max (1.5 nut / (Sct k tau)) eps)`. -/
def DEffSpec {α : Type} [LinearOrderedField α] (exp : α → α) (eps : α)
    (rho alpha_u Le nut Sct k tau : α) : α :=
  rho * (alpha_u / Le + (nut / Sct) * (1 - exp (-1 / max (1.5 * nut / (Sct * k * tau)) eps)))

/-! ## Quotients with a zero divisor -/

/-- The host's scalar quotient with the zero divisor told apart: `none` stands
for what the machine makes of a division by zero (the floating-point exception
the host traps, or else an infinity or a NaN), which exact arithmetic has not. -/
def checkedDiv {α : Type} [LinearOrderedField α] (a b : α) : Option α :=
  if b = 0 then none else some (a / b)

namespace nonUnityLewisViscosityETFCDiffusivity

variable {α : Type} [LinearOrderedField α]

/-- The argument of `Foam::exp` in `DEff`, lines 136-139 of the header, in one
cell and with checked quotients: first `1.5*nut/(Sct_*k*time)`, then `-1` over
the `max` of that quotient and `SMALL`. -/
def expArgChecked (SMALL : α) (self : nonUnityLewisViscosityETFCDiffusivity α)
    (celli : Nat) : Option α := do
  let x ← checkedDiv (1.5 * self.momentumTransport.nut.internalField.val celli)
    (self.Sct_ * self.momentumTransport.k.internalField.val celli * self.momentumTransport.time)
  checkedDiv (-1) (max x SMALL)

/-- The expression of `DEff(Yi)`, lines 131-142 of the header, in one cell and
with checked quotients: `alpha_u_/Le_`, `nut/Sct_`, and the two quotients of the
argument of the exponential. -/
def DEffChecked (exp : α → α) (SMALL : α) (self : nonUnityLewisViscosityETFCDiffusivity α)
    (_Yi : volScalarField α) (celli : Nat) : Option α := do
  let molecular ← checkedDiv self.alpha_u_ self.Le_
  let unsaturated ← checkedDiv (self.momentumTransport.nut.internalField.val celli) self.Sct_
  let arg ← self.expArgChecked SMALL celli
  pure (self.thermo.rho.internalField.val celli * (molecular + unsaturated * (1 - exp arg)))

end nonUnityLewisViscosityETFCDiffusivity

/-! ## Dimensions -/

/-- The host's `dimensionSet`: the exponents of mass, length, time, temperature,
quantity, current and luminous intensity, in the order of its constructor. -/
structure dimensionSet where
  /-- Exponent of mass. -/
  mass : Int
  /-- Exponent of length. -/
  length : Int
  /-- Exponent of time. -/
  time : Int
  /-- Exponent of temperature. -/
  temperature : Int
  /-- Exponent of quantity. -/
  moles : Int
  /-- Exponent of current. -/
  current : Int
  /-- Exponent of luminous intensity. -/
  luminousIntensity : Int
  deriving DecidableEq

namespace dimensionSet

/-- Dimensions of a product: the exponents add. -/
instance : Mul dimensionSet :=
  ⟨fun a b => ⟨a.mass + b.mass, a.length + b.length, a.time + b.time,
    a.temperature + b.temperature, a.moles + b.moles, a.current + b.current,
    a.luminousIntensity + b.luminousIntensity⟩⟩

/-- Dimensions of a quotient: the exponents subtract. -/
instance : Div dimensionSet :=
  ⟨fun a b => ⟨a.mass - b.mass, a.length - b.length, a.time - b.time,
    a.temperature - b.temperature, a.moles - b.moles, a.current - b.current,
    a.luminousIntensity - b.luminousIntensity⟩⟩

/-- Dimensions of a sum, a difference or a `max`: the host accepts equal
dimensions only, and `none` stands for its fatal error. -/
def add (a b : dimensionSet) : Option dimensionSet :=
  if a = b then some a else none

end dimensionSet

/-- The host's `dimless`. -/
def dimless : dimensionSet := ⟨0, 0, 0, 0, 0, 0, 0⟩

/-- The host's `dimMass`. -/
def dimMass : dimensionSet := ⟨1, 0, 0, 0, 0, 0, 0⟩

/-- The host's `dimLength`. -/
def dimLength : dimensionSet := ⟨0, 1, 0, 0, 0, 0, 0⟩

/-- The host's `dimTime`. -/
def dimTime : dimensionSet := ⟨0, 0, 1, 0, 0, 0, 0⟩

/-- The host's `dimTemperature`. -/
def dimTemperature : dimensionSet := ⟨0, 0, 0, 1, 0, 0, 0⟩

/-- The host's `dimEnergy`, kg m^2 / s^2. -/
def dimEnergy : dimensionSet := ⟨1, 2, -2, 0, 0, 0, 0⟩

/-- The host's `dimDensity`, kg / m^3. -/
def dimDensity : dimensionSet := dimMass / (dimLength * dimLength * dimLength)

/-- The host's `dimViscosity` (kinematic), m^2 / s. -/
def dimViscosity : dimensionSet := dimLength * dimLength / dimTime

/-- The host's `dimPower`, W. -/
def dimPower : dimensionSet := dimEnergy / dimTime

/-- Dimensions of an argument of a transcendental function such as `exp`: the
host accepts a dimensionless argument only. -/
def dimensionSet.trans (a : dimensionSet) : Option dimensionSet :=
  if a = dimless then some a else none

namespace nonUnityLewisViscosityETFCDiffusivity

/-- Dimensions of `Sct_`, line 58 of the source file. -/
def SctDimensions : dimensionSet := dimless

/-- Dimensions of `alpha_u_`, line 59 of the source file. -/
def alpha_uDimensions : dimensionSet := ⟨0, 2, -1, 0, 0, 0, 0⟩

/-- Dimensions of `Le_`, line 60 of the source file. -/
def LeDimensions : dimensionSet := dimless

/-- Dimensions of the argument of `max(., SMALL)` in `DEff`:
`1.5*nut/(Sct_*k*time)`, the factor 1.5 being a plain scalar. -/
def maxArgDimensions (nut k time : dimensionSet) : dimensionSet :=
  dimless * nut / (SctDimensions * k * time)

/-- Dimensions of `DEff`, the expression of lines 131-142 of the header checked
as the host checks it: `max` against the plain scalar `SMALL`, `exp` of `-1`
over it, `1 -` the exponential, the sum, and the product by `rho`. -/
def DEffDimensions (rho nut k time : dimensionSet) : Option dimensionSet := do
  let floored ← dimensionSet.add (maxArgDimensions nut k time) dimless
  let e ← dimensionSet.trans (dimless / floored)
  let factor ← dimensionSet.add dimless e
  let sum ← dimensionSet.add (alpha_uDimensions / LeDimensions) (nut / SctDimensions * factor)
  pure (rho * sum)

/-- Dimensions of `hGradY` in `q()` after the given number of passes of the
species loop: it starts as `dimEnergy/dimMass/dimLength`, and each `+=` adds
`interpolate(hi)*snGrad(Y[i])`, a surface-normal gradient being per length. -/
def hGradYDimensions (hi Y : dimensionSet) : Nat → Option dimensionSet
  | 0 => some (dimEnergy / dimMass / dimLength)
  | n + 1 => do
    let hGradY ← hGradYDimensions hi Y n
    dimensionSet.add hGradY (hi * (Y / dimLength))

/-- Dimensions of the species term `interpolate(alpha*DEff())*hGradY` of `q()`. -/
def speciesTermDimensions (alpha DEff hGradY : dimensionSet) : dimensionSet :=
  alpha * DEff * hGradY

/-- Dimensions of the Fourier term `-interpolate(alpha*kappaEff)*snGrad(T)` of
`q()`. -/
def fourierTermDimensions (alpha kappaEff T : dimensionSet) : dimensionSet :=
  alpha * kappaEff * (T / dimLength)

/-- Dimensions of `q()`, lines 104-140 of the source file, for a number of
species: the Fourier term, from which the species term is subtracted in place
when there are species. -/
def qDimensions (alpha kappaEff T hi Y rho nut k time : dimensionSet) (nSpecies : Nat) :
    Option dimensionSet := do
  let tmpq := fourierTermDimensions alpha kappaEff T
  if nSpecies ≠ 0 then
    let hGradY ← hGradYDimensions hi Y nSpecies
    let DEff ← DEffDimensions rho nut k time
    dimensionSet.add tmpq (speciesTermDimensions alpha DEff hGradY)
  else
    pure tmpq

end nonUnityLewisViscosityETFCDiffusivity

/-! ## Example states -/

/-- A state whose fields are uniform, but for the turbulent kinetic energy, which
is `k` in the cells and `kPatch` on the patches; there are no species. -/
def patchState (α : Type) [LinearOrderedField α] (rho alpha_u Le nut Sct k kPatch tau : α) :
    nonUnityLewisViscosityETFCDiffusivity α where
  momentumTransport :=
    { nut := volScalarField.uniform nut
      k := ⟨scalarField.uniform k, fun _ => scalarField.uniform kPatch⟩
      time := tau }
  thermo :=
    { rho := volScalarField.uniform rho
      T := volScalarField.uniform 300
      p := volScalarField.uniform 100000
      Y := []
      hsi := fun _ _ T => T }
  coeffDict_ := [("Prt", 1), ("Sct", Sct), ("alpha_u", alpha_u), ("Le", Le)]
  Prt_ := 1
  alpha := volScalarField.uniform 1
  kappaEff := volScalarField.uniform 1
  alphaEff := volScalarField.uniform 1
  Sct_ := Sct
  alpha_u_ := alpha_u
  Le_ := Le

/-- A state all of whose fields are uniform. -/
def uniformState (α : Type) [LinearOrderedField α] (rho alpha_u Le nut Sct k tau : α) :
    nonUnityLewisViscosityETFCDiffusivity α :=
  patchState α rho alpha_u Le nut Sct k k tau

/-- A state on two cells with two species: the fields are given by their values
in cell 0 and cell 1 (and are uniform on the patches). -/
def twoSpeciesState (α : Type) [LinearOrderedField α] :
    nonUnityLewisViscosityETFCDiffusivity α where
  momentumTransport :=
    { nut := volScalarField.uniform 2
      k := volScalarField.uniform 3
      time := 1 }
  thermo :=
    { rho := volScalarField.uniform 1
      T := ⟨⟨fun celli => if celli = 0 then 300 else 400⟩, fun _ => scalarField.uniform 300⟩
      p := volScalarField.uniform 100000
      Y := [⟨⟨fun celli => if celli = 0 then 1 else 0⟩, fun _ => scalarField.uniform 0⟩,
            ⟨⟨fun celli => if celli = 0 then 0 else 1⟩, fun _ => scalarField.uniform 0⟩]
      hsi := fun i _ T => (i + 1 : α) * T }
  coeffDict_ := [("Prt", 1), ("Sct", 1), ("alpha_u", 1), ("Le", 1)]
  Prt_ := 1
  alpha := volScalarField.uniform 1
  kappaEff := volScalarField.uniform 2
  alphaEff := volScalarField.uniform 5
  Sct_ := 1
  alpha_u_ := 1
  Le_ := 1

/-- The surface-normal gradient on the two-cell mesh: the difference across its
one face. -/
def twoCellSnGrad {α : Type} [LinearOrderedField α] (vf : volScalarField α) :
    surfaceScalarField α :=
  ⟨fun _ => vf.internalField.val 1 - vf.internalField.val 0⟩

/-- The face interpolation on the two-cell mesh: the mean of the two cells. -/
def twoCellInterpolate {α : Type} [LinearOrderedField α] (vf : volScalarField α) :
    surfaceScalarField α :=
  ⟨fun _ => (vf.internalField.val 0 + vf.internalField.val 1) / 2⟩

/-- The divergence on the two-cell mesh with cell volume 2: the flux of the one
face leaves cell 0 and enters cell 1. -/
def twoCellDiv {α : Type} [LinearOrderedField α] (phi : surfaceScalarField α) :
    volScalarField α :=
  ⟨⟨fun celli => if celli = 0 then phi.val 0 / 2 else if celli = 1 then -phi.val 0 / 2 else 0⟩,
    fun _ => scalarField.uniform 0⟩

/-- The explicit Laplacian on the two-cell mesh, with face area 3. -/
def twoCellLaplacian {α : Type} [LinearOrderedField α] (gamma vf : volScalarField α) :
    volScalarField α :=
  twoCellDiv (twoCellInterpolate gamma * twoCellSnGrad vf * scalarField.uniform 3)

/-- A closed mesh of two cells of volume 2 sharing one face of area 3, with its
operators; the Laplacian correction is the implicit Laplacian minus the explicit
one. -/
def twoCellOps (α : Type) [LinearOrderedField α] : fvOperators α where
  nCells := 2
  nFaces := 1
  owner := fun _ => 0
  neighbour := fun _ => 1
  V := scalarField.uniform 2
  magSf := scalarField.uniform 3
  interpolate := twoCellInterpolate
  snGrad := twoCellSnGrad
  div := twoCellDiv
  laplacian := twoCellLaplacian
  laplacianCorrection := fun gamma vf =>
    ⟨fun psi => scalarField.uniform 2 * (twoCellLaplacian gamma ⟨psi, vf.boundaryField⟩).internalField,
      scalarField.uniform 2 * (twoCellLaplacian gamma vf).internalField⟩

/-- A base-class constructor in the manner of the host's, reading the
coefficient dictionary `dict`: `Prt` is looked up, and defaults to 1 only when
`allowDefaultPrt` holds; the fields the base derives are uniform here. -/
def baseNewFrom {α : Type} [LinearOrderedField α] (dict : dictionary α) (_type : String)
    (momentumTransport : momentumTransportModel α) (thermo : thermoModel α)
    (allowDefaultPrt : Bool) : Option (unityLewisEddyDiffusivity α) := do
  let Prt ← if allowDefaultPrt then some (dict.lookupOrDefault "Prt" 1) else dict.lookup "Prt"
  pure
    { coeffDict_ := dict
      Prt_ := Prt
      momentumTransport := momentumTransport
      thermo := thermo
      alpha := volScalarField.uniform 1
      kappaEff := volScalarField.uniform 1
      alphaEff := volScalarField.uniform 1 }

/-- A base-class `read()` in the manner of the host's: when the re-read succeeds
(`ok`), the entries of `fresh` are merged over those of `coeffDict_` and `Prt_`
is read again; otherwise nothing changes. -/
def baseReadFrom {α : Type} [LinearOrderedField α] (ok : Bool) (fresh : dictionary α)
    (base : unityLewisEddyDiffusivity α) : Bool × unityLewisEddyDiffusivity α :=
  if ok then
    (true, { base with
      coeffDict_ := fresh ++ base.coeffDict_
      Prt_ := (fresh ++ base.coeffDict_).lookupOrDefault "Prt" base.Prt_ })
  else
    (false, base)

/-- The species sum of the heat flux as the specification words it: on every
face, the sum over the species `i` of `interpolate(h_i) snGrad(Y_i)`, with
`h_i = hsi(i, p, T)`. -/
def hGradYSum {α : Type} [LinearOrderedField α] (ops : fvOperators α) (thermo : thermoModel α) :
    surfaceScalarField α :=
  ⟨fun facei => ∑ i in Finset.range thermo.Y.length,
    (ops.interpolate (thermo.hsi i thermo.p thermo.T)).val facei
      * (ops.snGrad (thermo.Y.getD i (volScalarField.uniform 0))).val facei⟩

/-! # Theorems -/

/-! ## The closure: the value of `DEff` -/

section Closure

variable {α : Type} [LinearOrderedField α]

/-- C1: on every cell, `DEff(Yi)` and `DEff()` are the density times the sum of
`alpha_u / Le` and of `nut / Sct` times
`1 - exp (-1 / max (1.5 nut / (Sct k tau)) SMALL)`, with the cell's own density,
eddy viscosity and turbulent kinetic energy and with `tau` the value of
`mesh().time()`. -/
theorem DEff_cell_value (exp : α → α) (SMALL : α)
    (self : nonUnityLewisViscosityETFCDiffusivity α) (Yi : volScalarField α) (celli : Nat) :
    (self.DEff exp SMALL Yi).internalField.val celli
        = DEffSpec exp SMALL (self.thermo.rho.internalField.val celli) self.alpha_u_ self.Le_
            (self.momentumTransport.nut.internalField.val celli) self.Sct_
            (self.momentumTransport.k.internalField.val celli) self.momentumTransport.time
    ∧ (self.DEff0 exp SMALL).internalField.val celli
        = DEffSpec exp SMALL (self.thermo.rho.internalField.val celli) self.alpha_u_ self.Le_
            (self.momentumTransport.nut.internalField.val celli) self.Sct_
            (self.momentumTransport.k.internalField.val celli) self.momentumTransport.time :=
  ⟨rfl, rfl⟩

/-- The cell value of `DEff(Yi)`, unfolded. -/
theorem DEff_internalField_val (exp : α → α) (SMALL : α)
    (self : nonUnityLewisViscosityETFCDiffusivity α) (Yi : volScalarField α) (celli : Nat) :
    (self.DEff exp SMALL Yi).internalField.val celli
      = self.thermo.rho.internalField.val celli * (self.alpha_u_ / self.Le_
          + self.momentumTransport.nut.internalField.val celli / self.Sct_
            * (1 - exp (-1 / max (1.5 * self.momentumTransport.nut.internalField.val celli
                / (self.Sct_ * self.momentumTransport.k.internalField.val celli
                    * self.momentumTransport.time)) SMALL))) :=
  rfl

/-- The species field handed to `DEff(Yi)` plays no part: it is `DEff()`. -/
theorem DEff_eq_DEff0 (exp : α → α) (SMALL : α)
    (self : nonUnityLewisViscosityETFCDiffusivity α) (Yi : volScalarField α) :
    self.DEff exp SMALL Yi = self.DEff0 exp SMALL :=
  rfl

/-- On a patch face, `DEff()` is the closure at the patch values of `rho`, `nut`
and `k`. -/
theorem DEff0_boundary_value (exp : α → α) (SMALL : α)
    (self : nonUnityLewisViscosityETFCDiffusivity α) (patchi facei : Nat) :
    ((self.DEff0 exp SMALL).boundaryField patchi).val facei
      = DEffSpec exp SMALL ((self.thermo.rho.boundaryField patchi).val facei)
          self.alpha_u_ self.Le_ ((self.momentumTransport.nut.boundaryField patchi).val facei)
          self.Sct_ ((self.momentumTransport.k.boundaryField patchi).val facei)
          self.momentumTransport.time :=
  rfl

/-- On a patch face, `DEff(Yi, patchi)` is the closure at the patch values of
`rho` and `nut` and at the value of `k` in the cell that bears the label of the
patch face. -/
theorem DEffPatch_value (exp : α → α) (SMALL : α)
    (self : nonUnityLewisViscosityETFCDiffusivity α) (Yi : volScalarField α)
    (patchi facei : Nat) :
    (self.DEffPatch exp SMALL Yi patchi).val facei
      = DEffSpec exp SMALL ((self.thermo.rho.boundaryField patchi).val facei)
          self.alpha_u_ self.Le_ ((self.momentumTransport.nut.boundaryField patchi).val facei)
          self.Sct_ (self.momentumTransport.k.internalField.val facei)
          self.momentumTransport.time :=
  rfl

/-- A checked quotient by a non-zero divisor is the quotient. -/
theorem checkedDiv_of_ne (a b : α) (h : b ≠ 0) : checkedDiv a b = some (a / b) :=
  if_neg h

/-- A checked quotient by zero has no value. -/
theorem checkedDiv_zero (a : α) : checkedDiv a 0 = none :=
  if_pos rfl

/-- With `Sct_ k time` non-zero and a positive floor, the checked argument of the
exponential is the argument of the exponential in `DEff`. -/
theorem expArgChecked_of_ne (SMALL : α) (self : nonUnityLewisViscosityETFCDiffusivity α)
    (celli : Nat) (hSMALL : 0 < SMALL)
    (hden : self.Sct_ * self.momentumTransport.k.internalField.val celli
      * self.momentumTransport.time ≠ 0) :
    self.expArgChecked SMALL celli
      = some (-1 / max (1.5 * self.momentumTransport.nut.internalField.val celli
          / (self.Sct_ * self.momentumTransport.k.internalField.val celli
              * self.momentumTransport.time)) SMALL) := by
  unfold nonUnityLewisViscosityETFCDiffusivity.expArgChecked
  rw [checkedDiv_of_ne _ _ hden]
  exact checkedDiv_of_ne _ _ (lt_max_of_lt_right hSMALL).ne'

/-- With `Le_`, `Sct_` and `Sct_ k time` non-zero and a positive floor, the
checked evaluation returns the cell value of `DEff(Yi)`. -/
theorem DEffChecked_of_ne (exp : α → α) (SMALL : α)
    (self : nonUnityLewisViscosityETFCDiffusivity α) (Yi : volScalarField α) (celli : Nat)
    (hSMALL : 0 < SMALL) (hLe : self.Le_ ≠ 0) (hSct : self.Sct_ ≠ 0)
    (hden : self.Sct_ * self.momentumTransport.k.internalField.val celli
      * self.momentumTransport.time ≠ 0) :
    self.DEffChecked exp SMALL Yi celli
      = some ((self.DEff exp SMALL Yi).internalField.val celli) := by
  unfold nonUnityLewisViscosityETFCDiffusivity.DEffChecked
  rw [checkedDiv_of_ne _ _ hLe, checkedDiv_of_ne _ _ hSct,
    expArgChecked_of_ne SMALL self celli hSMALL hden]
  rfl

/-- Whatever value the checked evaluation returns is the cell value of
`DEff(Yi)`. -/
theorem DEffChecked_sound (exp : α → α) (SMALL : α)
    (self : nonUnityLewisViscosityETFCDiffusivity α) (Yi : volScalarField α) (celli : Nat)
    (v : α) (hv : self.DEffChecked exp SMALL Yi celli = some v) :
    v = (self.DEff exp SMALL Yi).internalField.val celli := by
  unfold nonUnityLewisViscosityETFCDiffusivity.DEffChecked
    nonUnityLewisViscosityETFCDiffusivity.expArgChecked at hv
  by_cases hLe : self.Le_ = 0
  · rw [hLe, checkedDiv_zero] at hv
    exact absurd hv (by simp)
  by_cases hSct : self.Sct_ = 0
  · rw [checkedDiv_of_ne _ _ hLe, hSct, checkedDiv_zero] at hv
    exact absurd hv (by simp)
  by_cases hden : self.Sct_ * self.momentumTransport.k.internalField.val celli
      * self.momentumTransport.time = 0
  · rw [checkedDiv_of_ne _ _ hLe, checkedDiv_of_ne _ _ hSct, hden, checkedDiv_zero] at hv
    exact absurd hv (by simp)
  by_cases hmax : max (1.5 * self.momentumTransport.nut.internalField.val celli
      / (self.Sct_ * self.momentumTransport.k.internalField.val celli
          * self.momentumTransport.time)) SMALL = 0
  · rw [checkedDiv_of_ne _ _ hLe, checkedDiv_of_ne _ _ hSct, checkedDiv_of_ne _ _ hden] at hv
    simp only [Option.bind_eq_bind, Option.some_bind, hmax, checkedDiv_zero,
      Option.none_bind] at hv
    exact absurd hv (by simp)
  · rw [checkedDiv_of_ne _ _ hLe, checkedDiv_of_ne _ _ hSct, checkedDiv_of_ne _ _ hden] at hv
    simp only [Option.bind_eq_bind, Option.some_bind, checkedDiv_of_ne _ _ hmax,
      Option.pure_def, Option.some.injEq] at hv
    rw [← hv]
    rfl

end Closure

/-! ## The closure over the reals: sign and limits -/

/-- For a positive floor the argument of the exponential is negative. -/
theorem exp_arg_neg (SMALL x : ℝ) (hSMALL : 0 < SMALL) : -1 / max x SMALL < 0 :=
  div_neg_of_neg_of_pos (by norm_num) (lt_max_of_lt_right hSMALL)

/-- For a positive floor the saturation factor `1 - exp (-1 / max x SMALL)` lies
strictly between 0 and 1. -/
theorem factor_mem_Ioo (SMALL x : ℝ) (hSMALL : 0 < SMALL) :
    0 < 1 - Real.exp (-1 / max x SMALL) ∧ 1 - Real.exp (-1 / max x SMALL) < 1 := by
  have h := exp_arg_neg SMALL x hSMALL
  have h1 : Real.exp (-1 / max x SMALL) < 1 := Real.exp_lt_one_iff.2 h
  have h2 := Real.exp_pos (-1 / max x SMALL)
  constructor <;> linarith

/-- C3, the claim refuted: with `Sct = 0` (and `rho = alpha_u = Le = nut = k = tau = 1`)
the quotient `nut / Sct` has the divisor zero and `DEff` has no value, hence no
non-negative one; and with `k = 0` (the others 1) the quotient
`1.5*nut/(Sct*k*tau)` has the divisor zero and the exponential has no argument,
hence no strictly negative one. -/
theorem DEff_no_value_at_zero_Sct :
    (uniformState ℝ 1 1 1 1 0 1 1).DEffChecked Real.exp 1e-15 (volScalarField.uniform 0) 0 = none
    ∧ (¬ ∃ v : ℝ,
        (uniformState ℝ 1 1 1 1 0 1 1).DEffChecked Real.exp 1e-15 (volScalarField.uniform 0) 0
          = some v ∧ 0 ≤ v)
    ∧ (uniformState ℝ 1 1 1 1 1 0 1).expArgChecked 1e-15 0 = none
    ∧ (¬ ∃ arg : ℝ,
        (uniformState ℝ 1 1 1 1 1 0 1).expArgChecked 1e-15 0 = some arg ∧ arg < 0) := by
  have h1 : (uniformState ℝ 1 1 1 1 0 1 1).DEffChecked Real.exp 1e-15
      (volScalarField.uniform 0) 0 = none := by
    show (checkedDiv (1 : ℝ) 1).bind (fun molecular => (checkedDiv (1 : ℝ) 0).bind _) = none
    rw [checkedDiv_zero, checkedDiv_of_ne (1 : ℝ) 1 one_ne_zero]
    rfl
  have h2 : (uniformState ℝ 1 1 1 1 1 0 1).expArgChecked 1e-15 0 = none := by
    show (checkedDiv (1.5 * (1 : ℝ)) (1 * 0 * 1)).bind _ = none
    have hz : (1 : ℝ) * 0 * 1 = 0 := by norm_num
    rw [hz, checkedDiv_zero]
    rfl
  refine ⟨h1, ?_, h2, ?_⟩
  · rintro ⟨v, hv, _⟩
    rw [h1] at hv
    exact absurd hv (by simp)
  · rintro ⟨arg, harg, _⟩
    rw [h2] at harg
    exact absurd harg (by simp)

/-- C3, amended: for a non-negative density, non-negative `nut` and `alpha_u`,
strictly positive `k`, `tau`, `Sct` and `Le` and a positive floor `SMALL`, every
quotient of `DEff` has a non-zero divisor, the argument of the exponential is
strictly negative, and `DEff`, the value the checked evaluation returns, is
non-negative. -/
theorem DEff_nonneg (SMALL : ℝ) (self : nonUnityLewisViscosityETFCDiffusivity ℝ)
    (Yi : volScalarField ℝ) (celli : Nat) (hSMALL : 0 < SMALL)
    (hrho : 0 ≤ self.thermo.rho.internalField.val celli)
    (hnut : 0 ≤ self.momentumTransport.nut.internalField.val celli)
    (hk : 0 < self.momentumTransport.k.internalField.val celli)
    (htau : 0 < self.momentumTransport.time)
    (hSct : 0 < self.Sct_) (hLe : 0 < self.Le_) (hau : 0 ≤ self.alpha_u_) :
    ∃ arg v : ℝ,
      self.expArgChecked SMALL celli = some arg ∧ arg < 0
      ∧ self.DEffChecked Real.exp SMALL Yi celli = some v
      ∧ v = (self.DEff Real.exp SMALL Yi).internalField.val celli
      ∧ 0 ≤ v := by
  have hden : self.Sct_ * self.momentumTransport.k.internalField.val celli
      * self.momentumTransport.time ≠ 0 := by positivity
  refine ⟨_, _, expArgChecked_of_ne SMALL self celli hSMALL hden, exp_arg_neg SMALL _ hSMALL,
    DEffChecked_of_ne Real.exp SMALL self Yi celli hSMALL hLe.ne' hSct.ne' hden, rfl, ?_⟩
  rw [DEff_internalField_val]
  exact mul_nonneg hrho (add_nonneg (div_nonneg hau hLe.le)
    (mul_nonneg (div_nonneg hnut hSct.le) (factor_mem_Ioo SMALL _ hSMALL).1.le))

/-- C3, amended, at `rho = 1.2`, `alpha_u = 1e-5`, `Le = 1`, `nut = 0`, `Sct = 0.7`,
`k = 3`, `tau = 2`: the checked evaluation returns a non-negative value. -/
theorem DEff_nonneg_witness :
    ∃ arg v : ℝ,
      (uniformState ℝ 1.2 1e-5 1 0 0.7 3 2).expArgChecked 1e-15 0 = some arg ∧ arg < 0
      ∧ (uniformState ℝ 1.2 1e-5 1 0 0.7 3 2).DEffChecked Real.exp 1e-15
          (volScalarField.uniform 0) 0 = some v
      ∧ v = ((uniformState ℝ 1.2 1e-5 1 0 0.7 3 2).DEff Real.exp 1e-15
          (volScalarField.uniform 0)).internalField.val 0
      ∧ 0 ≤ v :=
  DEff_nonneg 1e-15 (uniformState ℝ 1.2 1e-5 1 0 0.7 3 2) (volScalarField.uniform 0) 0
    (by norm_num)
    (by norm_num [uniformState, patchState, volScalarField.uniform, scalarField.uniform])
    (by norm_num [uniformState, patchState, volScalarField.uniform, scalarField.uniform])
    (by norm_num [uniformState, patchState, volScalarField.uniform, scalarField.uniform])
    (by norm_num [uniformState, patchState])
    (by norm_num [uniformState, patchState])
    (by norm_num [uniformState, patchState])
    (by norm_num [uniformState, patchState])

/-- C2: with `k = 1` in the cells and `k = 2` on the patch, `DEff(Yi, patchi)`
returns `1 - exp (-2/3)` on face 0 of patch 0, the closure at the cell value of
`k`, whereas the closure at the patch values, which `DEff()` holds on that face,
is `1 - exp (-4/3)`. -/
theorem DEffPatch_reads_cell_k :
    ((patchState ℝ 1 0 1 1 1 1 2 1).DEffPatch Real.exp (1e-15) (volScalarField.uniform 0) 0).val 0
        = 1 - Real.exp (-(2 / 3))
    ∧ (((patchState ℝ 1 0 1 1 1 1 2 1).DEff0 Real.exp (1e-15)).boundaryField 0).val 0
        = 1 - Real.exp (-(4 / 3))
    ∧ ((patchState ℝ 1 0 1 1 1 1 2 1).DEffPatch Real.exp (1e-15) (volScalarField.uniform 0) 0).val 0
        ≠ (((patchState ℝ 1 0 1 1 1 1 2 1).DEff0 Real.exp (1e-15)).boundaryField 0).val 0 := by
  have h1 : ((patchState ℝ 1 0 1 1 1 1 2 1).DEffPatch Real.exp (1e-15) (volScalarField.uniform 0) 0).val 0
      = 1 - Real.exp (-(2 / 3)) := by
    rw [DEffPatch_value]
    simp only [patchState, DEffSpec, volScalarField.uniform, scalarField.uniform]
    norm_num
  have h2 : (((patchState ℝ 1 0 1 1 1 1 2 1).DEff0 Real.exp (1e-15)).boundaryField 0).val 0
      = 1 - Real.exp (-(4 / 3)) := by
    rw [DEff0_boundary_value]
    simp only [patchState, DEffSpec, volScalarField.uniform, scalarField.uniform]
    norm_num
  refine ⟨h1, h2, ?_⟩
  rw [h1, h2]
  intro h
  have h3 : Real.exp (-(2 / 3)) = Real.exp (-(4 / 3)) := by linarith
  have h4 := Real.exp_injective h3
  norm_num at h4

/-- The cell value of `DEff(Yi)` in a uniform state. -/
theorem uniformState_DEff_val (SMALL rho alpha_u Le nut Sct k tau : ℝ) (Yi : volScalarField ℝ)
    (celli : Nat) :
    ((uniformState ℝ rho alpha_u Le nut Sct k tau).DEff Real.exp SMALL Yi).internalField.val celli
      = rho * (alpha_u / Le
          + nut / Sct * (1 - Real.exp (-1 / max (1.5 * nut / (Sct * k * tau)) SMALL))) :=
  rfl

/-- The saturation factor is at most the opposite of the argument of the
exponential. -/
theorem one_sub_exp_neg_le (u : ℝ) : 1 - Real.exp (-u) ≤ u := by
  have h := Real.add_one_le_exp (-u)
  linarith

/-- The saturation factor is at least `u / (1 + u)`. -/
theorem div_le_one_sub_exp_neg (u : ℝ) (hu : 0 ≤ u) : u / (1 + u) ≤ 1 - Real.exp (-u) := by
  have h1 : 0 < 1 + u := by linarith
  have h2 : 1 + u ≤ Real.exp u := by linarith [Real.add_one_le_exp u]
  have h3 : Real.exp (-u) ≤ 1 / (1 + u) := by
    rw [Real.exp_neg, ← one_div]
    exact one_div_le_one_div_of_le h1 h2
  have h4 : u / (1 + u) = 1 - 1 / (1 + u) := by
    field_simp
  linarith

/-- Past the floor, the argument of the exponential is `-(c / (1.5 nut))` with
`c = Sct k tau`. -/
theorem exp_arg_eventually (SMALL c : ℝ) (hc : 0 < c) :
    ∀ᶠ nut : ℝ in Filter.atTop,
      0 < nut ∧ -1 / max (1.5 * nut / c) SMALL = -(c / (1.5 * nut)) := by
  filter_upwards [Filter.eventually_ge_atTop (max 1 (SMALL * c / 1.5))] with nut hnut
  have h1 : (1 : ℝ) ≤ nut := le_trans (le_max_left _ _) hnut
  have h2 : SMALL * c / 1.5 ≤ nut := le_trans (le_max_right _ _) hnut
  have hpos : 0 < nut := by linarith
  have h3 : SMALL ≤ 1.5 * nut / c := by
    rw [le_div_iff₀ hc]
    have : SMALL * c ≤ nut * 1.5 := by
      rwa [div_le_iff₀ (by norm_num : (0 : ℝ) < 1.5)] at h2
    linarith
  refine ⟨hpos, ?_⟩
  rw [max_eq_left h3]
  field_simp

/-- The argument `c / (1.5 nut)` vanishes as `nut` grows. -/
theorem tendsto_arg_zero (c : ℝ) :
    Filter.Tendsto (fun nut : ℝ => c / (1.5 * nut)) Filter.atTop (nhds 0) :=
  tendsto_const_nhds.div_atTop
    (Filter.Tendsto.const_mul_atTop (by norm_num : (0 : ℝ) < 1.5) Filter.tendsto_id)

/-- As `nut` grows the saturation factor vanishes. -/
theorem factor_tendsto_zero (SMALL c : ℝ) (hc : 0 < c) :
    Filter.Tendsto (fun nut : ℝ => 1 - Real.exp (-1 / max (1.5 * nut / c) SMALL))
      Filter.atTop (nhds 0) := by
  refine tendsto_of_tendsto_of_tendsto_of_le_of_le' tendsto_const_nhds (tendsto_arg_zero c) ?_ ?_
  · filter_upwards [exp_arg_eventually SMALL c hc] with nut hnut
    rw [hnut.2]
    have hu : 0 ≤ c / (1.5 * nut) := by
      have := hnut.1
      positivity
    have := Real.exp_le_one_iff.2 (neg_nonpos.2 hu)
    linarith
  · filter_upwards [exp_arg_eventually SMALL c hc] with nut hnut
    rw [hnut.2]
    exact one_sub_exp_neg_le _

/-- As `nut` grows the eddy term tends to `k tau / 1.5`. -/
theorem eddy_tendsto (SMALL Sct k tau : ℝ) (hSct : 0 < Sct) (hk : 0 < k) (htau : 0 < tau) :
    Filter.Tendsto
      (fun nut : ℝ => nut / Sct * (1 - Real.exp (-1 / max (1.5 * nut / (Sct * k * tau)) SMALL)))
      Filter.atTop (nhds (k * tau / 1.5)) := by
  have hc : 0 < Sct * k * tau := by positivity
  have hlow : Filter.Tendsto
      (fun nut : ℝ => k * tau / 1.5 / (1 + Sct * k * tau / (1.5 * nut)))
      Filter.atTop (nhds (k * tau / 1.5)) := by
    have h1 : Filter.Tendsto (fun nut : ℝ => 1 + Sct * k * tau / (1.5 * nut))
        Filter.atTop (nhds (1 + 0)) :=
      tendsto_const_nhds.add (tendsto_arg_zero (Sct * k * tau))
    have h2 := (tendsto_const_nhds (x := k * tau / 1.5)).div h1 (by norm_num)
    simpa using h2
  refine tendsto_of_tendsto_of_tendsto_of_le_of_le' hlow tendsto_const_nhds ?_ ?_
  · filter_upwards [exp_arg_eventually SMALL (Sct * k * tau) hc] with nut hnut
    rw [hnut.2]
    have hnpos := hnut.1
    have hu : 0 ≤ Sct * k * tau / (1.5 * nut) := by positivity
    have hb := div_le_one_sub_exp_neg _ hu
    have hns : 0 ≤ nut / Sct := by positivity
    have heq : k * tau / 1.5 / (1 + Sct * k * tau / (1.5 * nut))
        = nut / Sct * (Sct * k * tau / (1.5 * nut) / (1 + Sct * k * tau / (1.5 * nut))) := by
      field_simp
      ring
    rw [heq]
    exact mul_le_mul_of_nonneg_left hb hns
  · filter_upwards [exp_arg_eventually SMALL (Sct * k * tau) hc] with nut hnut
    rw [hnut.2]
    have hnpos := hnut.1
    have hb := one_sub_exp_neg_le (Sct * k * tau / (1.5 * nut))
    have hns : 0 ≤ nut / Sct := by positivity
    have heq : k * tau / 1.5 = nut / Sct * (Sct * k * tau / (1.5 * nut)) := by
      field_simp
      ring
    rw [heq]
    exact mul_le_mul_of_nonneg_left hb hns

/-- As `nut` grows, `DEff` in a uniform state tends to
`rho (alpha_u / Le + k tau / 1.5)`. -/
theorem uniformState_DEff_tendsto (SMALL rho alpha_u Le Sct k tau : ℝ) (Yi : volScalarField ℝ)
    (celli : Nat) (hSct : 0 < Sct) (hk : 0 < k) (htau : 0 < tau) :
    Filter.Tendsto
      (fun nut : ℝ =>
        ((uniformState ℝ rho alpha_u Le nut Sct k tau).DEff Real.exp SMALL Yi).internalField.val
          celli)
      Filter.atTop (nhds (rho * (alpha_u / Le + k * tau / 1.5))) := by
  simp only [uniformState_DEff_val]
  exact ((eddy_tendsto SMALL Sct k tau hSct hk htau).const_add (alpha_u / Le)).const_mul rho

/-- C5, the claim refuted: with `rho = Sct = Le = k = tau = 1` and `alpha_u = 0`,
as `nut` grows the bracketed factor does not tend to 1, and the difference of
`DEff` and `rho (alpha_u / Le + nut / Sct)` does not tend to 0. -/
theorem DEff_sub_saturated_not_tendsto_zero :
    ¬ Filter.Tendsto
        (fun nut : ℝ => 1 - Real.exp (-1 / max (1.5 * nut / (1 * 1 * 1)) 1e-15))
        Filter.atTop (nhds 1)
    ∧ ¬ Filter.Tendsto
        (fun nut : ℝ =>
          ((uniformState ℝ 1 0 1 nut 1 1 1).DEff Real.exp 1e-15
              (volScalarField.uniform 0)).internalField.val 0
            - 1 * (0 / 1 + nut / 1))
        Filter.atTop (nhds 0) := by
  constructor
  · intro h
    have h0 := factor_tendsto_zero 1e-15 (1 * 1 * 1) (by norm_num)
    exact zero_ne_one (tendsto_nhds_unique h0 h)
  · intro h
    have hD := uniformState_DEff_tendsto 1e-15 1 0 1 1 1 1 (volScalarField.uniform 0) 0
      one_pos one_pos one_pos
    have hsub := hD.sub h
    have hid : Filter.Tendsto (fun nut : ℝ => nut) Filter.atTop
        (nhds (1 * (0 / 1 + 1 * 1 / 1.5) - 0)) := by
      refine hsub.congr ?_
      intro nut
      ring
    exact not_tendsto_nhds_of_tendsto_atTop Filter.tendsto_id _ hid

/-- C5, amended: for positive `Sct`, `k` and `tau`, as `nut` grows without bound
the bracketed factor tends to 0, the eddy term tends to `k tau / 1.5`, and `DEff`
tends to `rho (alpha_u / Le + k tau / 1.5)`. -/
theorem DEff_tendsto_large_nut (SMALL rho alpha_u Le Sct k tau : ℝ) (Yi : volScalarField ℝ)
    (celli : Nat) (hSct : 0 < Sct) (hk : 0 < k) (htau : 0 < tau) :
    Filter.Tendsto
        (fun nut : ℝ => 1 - Real.exp (-1 / max (1.5 * nut / (Sct * k * tau)) SMALL))
        Filter.atTop (nhds 0)
    ∧ Filter.Tendsto
        (fun nut : ℝ =>
          nut / Sct * (1 - Real.exp (-1 / max (1.5 * nut / (Sct * k * tau)) SMALL)))
        Filter.atTop (nhds (k * tau / 1.5))
    ∧ Filter.Tendsto
        (fun nut : ℝ =>
          ((uniformState ℝ rho alpha_u Le nut Sct k tau).DEff Real.exp SMALL Yi).internalField.val
            celli)
        Filter.atTop (nhds (rho * (alpha_u / Le + k * tau / 1.5))) :=
  ⟨factor_tendsto_zero SMALL (Sct * k * tau) (by positivity),
    eddy_tendsto SMALL Sct k tau hSct hk htau,
    uniformState_DEff_tendsto SMALL rho alpha_u Le Sct k tau Yi celli hSct hk htau⟩

/-- C5, amended, at `rho = 1.2`, `alpha_u = 1e-5`, `Le = 1`, `Sct = 0.7`, `k = 3` and
`tau = 2`: `DEff` tends to `1.2 (1e-5 / 1 + 3 * 2 / 1.5)`. -/
theorem DEff_tendsto_large_nut_witness :
    Filter.Tendsto
      (fun nut : ℝ =>
        ((uniformState ℝ 1.2 1e-5 1 nut 0.7 3 2).DEff Real.exp 1e-15
          (volScalarField.uniform 0)).internalField.val 0)
      Filter.atTop (nhds (1.2 * (1e-5 / 1 + 3 * 2 / 1.5))) :=
  (DEff_tendsto_large_nut 1e-15 1.2 1e-5 1 0.7 3 2 (volScalarField.uniform 0) 0
    (by norm_num) (by norm_num) (by norm_num)).2.2

/-! ## The heat flux `q()` and the energy source `divq(he)` -/

/-- Value of a uniform field. -/
theorem scalarField.uniform_val {α : Type} (x : α) (i : Nat) :
    (scalarField.uniform x).val i = x :=
  rfl

section Flux

variable {α : Type} [LinearOrderedField α]

/-- Value of a sum of fields. -/
theorem scalarField.add_val (a b : scalarField α) (i : Nat) :
    (a + b).val i = a.val i + b.val i :=
  rfl

/-- Value of a difference of fields. -/
theorem scalarField.sub_val (a b : scalarField α) (i : Nat) :
    (a - b).val i = a.val i - b.val i :=
  rfl

/-- Value of a product of fields. -/
theorem scalarField.mul_val (a b : scalarField α) (i : Nat) :
    (a * b).val i = a.val i * b.val i :=
  rfl

/-- Value of a quotient of fields. -/
theorem scalarField.div_val (a b : scalarField α) (i : Nat) :
    (a / b).val i = a.val i / b.val i :=
  rfl

/-- Value of the opposite of a field. -/
theorem scalarField.neg_val (a : scalarField α) (i : Nat) :
    (-a).val i = -a.val i :=
  rfl

/-- Cell values of the opposite of a field. -/
theorem volScalarField.neg_internalField (a : volScalarField α) :
    (-a).internalField = -a.internalField :=
  rfl

/-- The species loop of `q()` and `divq(he)`, face by face: started at label `n`
with the accumulator `acc`, it adds to `acc` the sum over the species of the
interpolated species enthalpy times the surface-normal gradient of the species. -/
theorem hGradY_loop_val (ops : fvOperators α) (thermo : thermoModel α) (facei : Nat) :
    ∀ (l : List (volScalarField α)) (n : Nat) (acc : surfaceScalarField α),
      ((l.enumFrom n).foldl
          (fun hGradY iY =>
            hGradY + ops.interpolate (thermo.hsi iY.1 thermo.p thermo.T) * ops.snGrad iY.2)
          acc).val facei
        = acc.val facei + ∑ j in Finset.range l.length,
            (ops.interpolate (thermo.hsi (n + j) thermo.p thermo.T)).val facei
              * (ops.snGrad (l.getD j (volScalarField.uniform 0))).val facei := by
  intro l
  induction l with
  | nil => intro n acc; simp
  | cons y ys ih =>
    intro n acc
    rw [List.enumFrom_cons, List.foldl_cons, ih, List.length_cons, Finset.sum_range_succ']
    have hstep : (acc + ops.interpolate (thermo.hsi n thermo.p thermo.T) * ops.snGrad y).val facei
        = acc.val facei + (ops.interpolate (thermo.hsi n thermo.p thermo.T)).val facei
            * (ops.snGrad y).val facei := rfl
    rw [hstep]
    have hsum : ∑ j in Finset.range ys.length,
          (ops.interpolate (thermo.hsi (n + 1 + j) thermo.p thermo.T)).val facei
            * (ops.snGrad (ys.getD j (volScalarField.uniform 0))).val facei
        = ∑ j in Finset.range ys.length,
          (ops.interpolate (thermo.hsi (n + (j + 1)) thermo.p thermo.T)).val facei
            * (ops.snGrad ((y :: ys).getD (j + 1) (volScalarField.uniform 0))).val facei := by
      refine Finset.sum_congr rfl ?_
      intro j _
      rw [List.getD_cons_succ, Nat.add_assoc, Nat.add_comm 1 j]
    rw [hsum, List.getD_cons_zero, Nat.add_zero]
    ring

/-- The face value of `q()`: the Fourier term minus the interpolated
`alpha DEff()` times the species sum, for every species list. -/
theorem q_val (exp : α → α) (SMALL : α) (ops : fvOperators α)
    (self : nonUnityLewisViscosityETFCDiffusivity α) (facei : Nat) :
    (self.q exp SMALL ops).val facei
      = -(ops.interpolate (self.alpha * self.kappaEff)).val facei
            * (ops.snGrad self.thermo.T).val facei
          - (ops.interpolate (self.alpha * self.DEff0 exp SMALL)).val facei
            * ∑ i in Finset.range self.thermo.Y.length,
                (ops.interpolate (self.thermo.hsi i self.thermo.p self.thermo.T)).val facei
                  * (ops.snGrad (self.thermo.Y.getD i (volScalarField.uniform 0))).val facei := by
  unfold nonUnityLewisViscosityETFCDiffusivity.q
  by_cases hY : self.thermo.Y.length ≠ 0
  · have h := hGradY_loop_val ops self.thermo facei self.thermo.Y 0 (scalarField.uniform 0)
    simp only [Nat.zero_add, scalarField.uniform_val, zero_add] at h
    simp only [hY, ne_eq, not_false_eq_true, if_true, scalarField.sub_val, scalarField.mul_val,
      scalarField.neg_val, List.enum, h]
  · have h0 : self.thermo.Y.length = 0 := not_not.1 hY
    simp only [h0, ne_eq, not_true_eq_false, if_false, Finset.range_zero, Finset.sum_empty,
      mul_zero, sub_zero, scalarField.mul_val, scalarField.neg_val]

/-- C6: on every face, `q()` is
`-interpolate(alpha kappaEff) snGrad(T) - interpolate(alpha DEff()) sum_i interpolate(h_i) snGrad(Y_i)`
with the sum over all species `i` of `thermo.Y()` and `h_i = hsi(i, p, T)`; with
no species it is the Fourier term alone. -/
theorem q_face_value (exp : α → α) (SMALL : α) (ops : fvOperators α)
    (self : nonUnityLewisViscosityETFCDiffusivity α) (facei : Nat) :
    (self.q exp SMALL ops).val facei
        = -(ops.interpolate (self.alpha * self.kappaEff)).val facei
              * (ops.snGrad self.thermo.T).val facei
            - (ops.interpolate (self.alpha * self.DEff0 exp SMALL)).val facei
              * ∑ i in Finset.range self.thermo.Y.length,
                  (ops.interpolate (self.thermo.hsi i self.thermo.p self.thermo.T)).val facei
                    * (ops.snGrad (self.thermo.Y.getD i (volScalarField.uniform 0))).val facei
    ∧ (self.thermo.Y = [] →
        (self.q exp SMALL ops).val facei
          = -(ops.interpolate (self.alpha * self.kappaEff)).val facei
              * (ops.snGrad self.thermo.T).val facei) := by
  refine ⟨q_val exp SMALL ops self facei, ?_⟩
  intro hY
  rw [q_val, hY]
  simp

/-- The species loop, started from the zero field, is the species sum. -/
theorem hGradY_loop_eq (ops : fvOperators α) (thermo : thermoModel α) :
    thermo.Y.enum.foldl
        (fun hGradY iY =>
          hGradY + ops.interpolate (thermo.hsi iY.1 thermo.p thermo.T) * ops.snGrad iY.2)
        (scalarField.uniform 0)
      = hGradYSum ops thermo := by
  ext facei
  have h := hGradY_loop_val ops thermo facei thermo.Y 0 (scalarField.uniform 0)
  simp only [Nat.zero_add, scalarField.uniform_val, zero_add] at h
  simp only [List.enum, h, hGradYSum]

/-- The heat flux as a field: the Fourier term minus the species term. -/
theorem q_eq (exp : α → α) (SMALL : α) (ops : fvOperators α)
    (self : nonUnityLewisViscosityETFCDiffusivity α) :
    self.q exp SMALL ops
      = (-ops.interpolate (self.alpha * self.kappaEff)) * ops.snGrad self.thermo.T
          - ops.interpolate (self.alpha * self.DEff0 exp SMALL) * hGradYSum ops self.thermo := by
  ext facei
  rw [q_val]
  simp only [scalarField.sub_val, scalarField.mul_val, scalarField.neg_val, hGradYSum]

/-- The energy source, with the species loop replaced by the species sum. -/
theorem divq_eq (exp : α → α) (SMALL : α) (ops : fvOperators α)
    (self : nonUnityLewisViscosityETFCDiffusivity α) (he : volScalarField α) :
    self.divq exp SMALL ops he
      = ops.subField
          (ops.subMatrix
            (ops.Su (-ops.laplacian (self.alpha * self.kappaEff) self.thermo.T) he)
            (ops.laplacianCorrection (self.alpha * self.alphaEff) he))
          (ops.div (ops.interpolate (self.alpha * self.DEff0 exp SMALL)
            * hGradYSum ops self.thermo * ops.magSf)) := by
  unfold nonUnityLewisViscosityETFCDiffusivity.divq
  simp only [hGradY_loop_eq]

/-- An additive divergence sends the zero flux to zero. -/
theorem DivAdditive.div_zero (ops : fvOperators α) (hdiv : ops.DivAdditive) (celli : Nat) :
    (ops.div (scalarField.uniform 0)).internalField.val celli = 0 := by
  have h := hdiv (scalarField.uniform 0) (scalarField.uniform 0)
  have hz : (scalarField.uniform (0 : α) - scalarField.uniform 0) = scalarField.uniform 0 := by
    ext i
    simp only [scalarField.sub_val, scalarField.uniform_val, sub_zero]
  rw [hz] at h
  have h2 := congrArg (fun a => a.val celli) h
  simp only [scalarField.sub_val, sub_self] at h2
  exact h2

/-- With the explicit Laplacian taken as a divergence and the divergence
additive, the explicit part of `divq(he)` is the divergence of `q() |Sf|`. -/
theorem div_q_magSf (exp : α → α) (SMALL : α) (ops : fvOperators α)
    (self : nonUnityLewisViscosityETFCDiffusivity α)
    (hlap : ops.GaussLaplacian) (hdiv : ops.DivAdditive) (celli : Nat) :
    (ops.div (self.q exp SMALL ops * ops.magSf)).internalField.val celli
      = -(ops.laplacian (self.alpha * self.kappaEff) self.thermo.T).internalField.val celli
        - (ops.div (ops.interpolate (self.alpha * self.DEff0 exp SMALL)
            * hGradYSum ops self.thermo * ops.magSf)).internalField.val celli := by
  have hq : self.q exp SMALL ops * ops.magSf
      = (scalarField.uniform 0
          - ops.interpolate (self.alpha * self.kappaEff) * ops.snGrad self.thermo.T * ops.magSf)
        - ops.interpolate (self.alpha * self.DEff0 exp SMALL)
            * hGradYSum ops self.thermo * ops.magSf := by
    rw [q_eq]
    ext facei
    simp only [scalarField.sub_val, scalarField.mul_val, scalarField.neg_val,
      scalarField.uniform_val]
    ring
  rw [hq, hdiv, scalarField.sub_val, hdiv, scalarField.sub_val, DivAdditive.div_zero ops hdiv,
    hlap]
  ring

/-- C7: `divq(he)` is the explicit source `-laplacian(alpha kappaEff, T)`, minus
`laplacianCorrection(alpha alphaEff, he)`, minus
`div(interpolate(alpha DEff()) hGradY |Sf|)` with `hGradY` the species sum of
`q()`, for every state and every species list; and when the explicit Laplacian
is `div(interpolate(G) snGrad(T) |Sf|)` (the divergence being additive), it is
the explicit source `div(q() |Sf|)` minus that implicit correction. -/
theorem divq_consistent_with_q (exp : α → α) (SMALL : α) (ops : fvOperators α)
    (self : nonUnityLewisViscosityETFCDiffusivity α) (he : volScalarField α) :
    self.divq exp SMALL ops he
        = ops.subField
            (ops.subMatrix
              (ops.Su (-ops.laplacian (self.alpha * self.kappaEff) self.thermo.T) he)
              (ops.laplacianCorrection (self.alpha * self.alphaEff) he))
            (ops.div (ops.interpolate (self.alpha * self.DEff0 exp SMALL)
              * hGradYSum ops self.thermo * ops.magSf))
    ∧ (ops.GaussLaplacian → ops.DivAdditive →
        self.divq exp SMALL ops he
          = ops.subMatrix (ops.Su (ops.div (self.q exp SMALL ops * ops.magSf)) he)
              (ops.laplacianCorrection (self.alpha * self.alphaEff) he)) := by
  refine ⟨divq_eq exp SMALL ops self he, ?_⟩
  intro hlap hdiv
  rw [divq_eq]
  ext celli
  · rfl
  · simp only [fvOperators.subField, fvOperators.subMatrix, fvOperators.Su, scalarField.add_val,
      scalarField.sub_val, scalarField.mul_val, scalarField.uniform_val,
      volScalarField.neg_internalField, scalarField.neg_val,
      div_q_magSf exp SMALL ops self hlap hdiv]
    ring

/-- The two-cell operators take the explicit Laplacian as a divergence. -/
theorem twoCellOps_GaussLaplacian : (twoCellOps α).GaussLaplacian := by
  intro gamma vf
  rfl

/-- The two-cell divergence is additive. -/
theorem twoCellOps_DivAdditive : (twoCellOps α).DivAdditive := by
  intro a b
  ext celli
  simp only [twoCellOps, twoCellDiv, scalarField.sub_val]
  split_ifs <;> ring

/-- The two-cell mesh is closed. -/
theorem twoCellOps_ClosedMesh : (twoCellOps α).ClosedMesh := by
  refine ⟨?_, ?_, ?_⟩
  · intro facei _
    simp [twoCellOps]
  · intro celli _
    simp [twoCellOps, scalarField.uniform]
  · intro phi celli hc
    have hc2 : celli < 2 := hc
    simp only [twoCellOps, twoCellDiv, scalarField.uniform_val, Finset.range_one,
      Finset.sum_singleton]
    interval_cases celli
    · simp
      ring
    · simp
      ring

/-- The two-cell Laplacian correction stands for no source at the field it is
built on. -/
theorem twoCellOps_CorrectionVanishesOnUniform :
    (twoCellOps α).CorrectionVanishesOnUniform := by
  intro gamma x celli
  rfl

/-- C7 on the two-cell mesh with two species: `divq(he)` is the explicit source
`div(q() |Sf|)` minus the implicit Laplacian correction. -/
theorem divq_consistent_with_q_witness :
    (twoSpeciesState ℝ).divq Real.exp 1e-15 (twoCellOps ℝ) (volScalarField.uniform 1)
      = (twoCellOps ℝ).subMatrix
          ((twoCellOps ℝ).Su
            ((twoCellOps ℝ).div ((twoSpeciesState ℝ).q Real.exp 1e-15 (twoCellOps ℝ)
              * (twoCellOps ℝ).magSf))
            (volScalarField.uniform 1))
          ((twoCellOps ℝ).laplacianCorrection
            ((twoSpeciesState ℝ).alpha * (twoSpeciesState ℝ).alphaEff)
            (volScalarField.uniform 1)) :=
  (divq_consistent_with_q Real.exp 1e-15 (twoCellOps ℝ) (twoSpeciesState ℝ)
    (volScalarField.uniform 1)).2 twoCellOps_GaussLaplacian twoCellOps_DivAdditive

/-- On a closed mesh the volume-weighted sum of a divergence over the cells is
zero: the flux of every face leaves one cell and enters another. -/
theorem ClosedMesh.sum_div (ops : fvOperators α) (hclosed : ops.ClosedMesh)
    (phi : surfaceScalarField α) :
    ∑ celli in Finset.range ops.nCells,
      ops.V.val celli * (ops.div phi).internalField.val celli = 0 := by
  obtain ⟨hfaces, _, hdiv⟩ := hclosed
  have h1 : ∑ celli in Finset.range ops.nCells,
        ops.V.val celli * (ops.div phi).internalField.val celli
      = ∑ celli in Finset.range ops.nCells, ∑ facei in Finset.range ops.nFaces,
          ((if ops.owner facei = celli then phi.val facei else 0)
            - (if ops.neighbour facei = celli then phi.val facei else 0)) :=
    Finset.sum_congr rfl (fun celli hc => hdiv phi celli (Finset.mem_range.1 hc))
  rw [h1, Finset.sum_comm]
  refine Finset.sum_eq_zero ?_
  intro facei hf
  obtain ⟨ho, hn⟩ := hfaces facei (Finset.mem_range.1 hf)
  rw [Finset.sum_sub_distrib, Finset.sum_ite_eq, Finset.sum_ite_eq,
    if_pos (Finset.mem_range.2 ho), if_pos (Finset.mem_range.2 hn), sub_self]

/-- The volume integral of the source a matrix stands for, on cells of non-zero
volume: the sum of the matrix residuals. -/
theorem volIntegral_eq (ops : fvOperators α)
    (hV : ∀ celli, celli < ops.nCells → ops.V.val celli ≠ 0)
    (A : fvScalarMatrix α) (psi : volScalarField α) :
    ops.volIntegral A psi
      = ∑ celli in Finset.range ops.nCells,
          ((A.coeffs psi.internalField).val celli - A.source.val celli) := by
  unfold fvOperators.volIntegral fvOperators.apply
  refine Finset.sum_congr rfl ?_
  intro celli hc
  rw [scalarField.div_val, scalarField.sub_val,
    mul_div_cancel₀ _ (hV celli (Finset.mem_range.1 hc))]

/-- C8: on a closed mesh (every face between two cells of the mesh, its flux
leaving one and entering the other, no flux through the boundary), with the
explicit Laplacian the divergence of its face flux and `he` uniform, the volume
integral of `divq(he)` is zero, whatever `T` and the `Y_i` are, the uniform ones
included. -/
theorem divq_conservative (exp : α → α) (SMALL : α) (ops : fvOperators α)
    (self : nonUnityLewisViscosityETFCDiffusivity α) (x : α)
    (hclosed : ops.ClosedMesh) (hlap : ops.GaussLaplacian)
    (hcorr : ops.CorrectionVanishesOnUniform) :
    ops.volIntegral (self.divq exp SMALL ops (volScalarField.uniform x))
      (volScalarField.uniform x) = 0 := by
  rw [volIntegral_eq ops hclosed.2.1, divq_eq]
  have hterm : ∀ celli,
      ((ops.subField
          (ops.subMatrix
            (ops.Su (-ops.laplacian (self.alpha * self.kappaEff) self.thermo.T)
              (volScalarField.uniform x))
            (ops.laplacianCorrection (self.alpha * self.alphaEff) (volScalarField.uniform x)))
          (ops.div (ops.interpolate (self.alpha * self.DEff0 exp SMALL)
            * hGradYSum ops self.thermo * ops.magSf))).coeffs
          (volScalarField.uniform x).internalField).val celli
        - (ops.subField
          (ops.subMatrix
            (ops.Su (-ops.laplacian (self.alpha * self.kappaEff) self.thermo.T)
              (volScalarField.uniform x))
            (ops.laplacianCorrection (self.alpha * self.alphaEff) (volScalarField.uniform x)))
          (ops.div (ops.interpolate (self.alpha * self.DEff0 exp SMALL)
            * hGradYSum ops self.thermo * ops.magSf))).source.val celli
      = -(ops.V.val celli
            * (ops.div (ops.interpolate (self.alpha * self.kappaEff)
                * ops.snGrad self.thermo.T * ops.magSf)).internalField.val celli)
        - ops.V.val celli
            * (ops.div (ops.interpolate (self.alpha * self.DEff0 exp SMALL)
                * hGradYSum ops self.thermo * ops.magSf)).internalField.val celli := by
    intro celli
    have hc := hcorr (self.alpha * self.alphaEff) x celli
    simp only [fvOperators.subField, fvOperators.subMatrix, fvOperators.Su, scalarField.add_val,
      scalarField.sub_val, scalarField.mul_val, scalarField.uniform_val,
      volScalarField.neg_internalField, scalarField.neg_val, hc]
    rw [hlap (self.alpha * self.kappaEff) self.thermo.T]
    ring
  simp only [hterm, Finset.sum_sub_distrib, Finset.sum_neg_distrib,
    ClosedMesh.sum_div ops hclosed, neg_zero, sub_zero]

/-- C8 on the two-cell mesh with two species and non-uniform `T` and `Y_i`. -/
theorem divq_conservative_witness :
    (twoCellOps ℝ).volIntegral
      ((twoSpeciesState ℝ).divq Real.exp 1e-15 (twoCellOps ℝ) (volScalarField.uniform 7))
      (volScalarField.uniform 7) = 0 :=
  divq_conservative Real.exp 1e-15 (twoCellOps ℝ) (twoSpeciesState ℝ) 7
    twoCellOps_ClosedMesh twoCellOps_GaussLaplacian twoCellOps_CorrectionVanishesOnUniform

end Flux

/-! ## Construction and `read()` -/

section Lifecycle

variable {α : Type}

/-- The constructor, once the base is built: it succeeds exactly with the three
looked-up values. -/
theorem New_of_base
    (baseNew : String → momentumTransportModel α → thermoModel α → Bool →
      Option (unityLewisEddyDiffusivity α))
    (momentumTransport : momentumTransportModel α) (thermo : thermoModel α)
    (base : unityLewisEddyDiffusivity α)
    (hbase : baseNew nonUnityLewisViscosityETFCDiffusivity.typeName momentumTransport thermo
      false = some base) :
    nonUnityLewisViscosityETFCDiffusivity.New baseNew momentumTransport thermo
      = (base.coeffDict_.lookup "Sct").bind fun Sct =>
          (base.coeffDict_.lookup "alpha_u").bind fun alpha_u =>
            (base.coeffDict_.lookup "Le").bind fun Le =>
              some { tounityLewisEddyDiffusivity := base, Sct_ := Sct, alpha_u_ := alpha_u,
                     Le_ := Le } := by
  unfold nonUnityLewisViscosityETFCDiffusivity.New
  rw [hbase]
  rfl

/-- C9: when the base `read()` fails, `read()` returns false and `Sct_`,
`alpha_u_` and `Le_` keep their values; when it succeeds, `read()` returns true
with the three reloaded from the coefficient dictionary that holds them; and
whatever `read()` returns is the verdict of the base `read()`. -/
theorem read_mirrors_base
    (baseRead : unityLewisEddyDiffusivity α → Bool × unityLewisEddyDiffusivity α)
    (self : nonUnityLewisViscosityETFCDiffusivity α) :
    ((baseRead self.tounityLewisEddyDiffusivity).1 = false →
        self.read baseRead
          = some (false,
              { tounityLewisEddyDiffusivity := (baseRead self.tounityLewisEddyDiffusivity).2,
                Sct_ := self.Sct_, alpha_u_ := self.alpha_u_, Le_ := self.Le_ }))
    ∧ (∀ Sct alpha_u Le : α,
        (baseRead self.tounityLewisEddyDiffusivity).1 = true →
        (baseRead self.tounityLewisEddyDiffusivity).2.coeffDict_.lookup "Sct" = some Sct →
        (baseRead self.tounityLewisEddyDiffusivity).2.coeffDict_.lookup "alpha_u"
          = some alpha_u →
        (baseRead self.tounityLewisEddyDiffusivity).2.coeffDict_.lookup "Le" = some Le →
        self.read baseRead
          = some (true,
              { tounityLewisEddyDiffusivity := (baseRead self.tounityLewisEddyDiffusivity).2,
                Sct_ := Sct, alpha_u_ := alpha_u, Le_ := Le }))
    ∧ (∀ (ok : Bool) (next : nonUnityLewisViscosityETFCDiffusivity α),
        self.read baseRead = some (ok, next) →
        ok = (baseRead self.tounityLewisEddyDiffusivity).1) := by
  refine ⟨?_, ?_, ?_⟩
  · intro h
    unfold nonUnityLewisViscosityETFCDiffusivity.read
    simp only [h]
    rfl
  · intro Sct alpha_u Le h hSct hau hLe
    unfold nonUnityLewisViscosityETFCDiffusivity.read
    simp only [h, hSct, hau, hLe]
    rfl
  · intro ok next h
    unfold nonUnityLewisViscosityETFCDiffusivity.read at h
    cases hb : (baseRead self.tounityLewisEddyDiffusivity).1
    · simp only [hb] at h
      have h2 : (false, _) = (ok, next) := Option.some.inj h
      exact (congrArg Prod.fst h2).symm
    · simp only [hb, if_true] at h
      cases h1 : (baseRead self.tounityLewisEddyDiffusivity).2.coeffDict_.lookup "Sct" with
      | none => simp [h1] at h
      | some a =>
        cases h2 : (baseRead self.tounityLewisEddyDiffusivity).2.coeffDict_.lookup "alpha_u" with
        | none => simp [h1, h2] at h
        | some b =>
          cases h3 : (baseRead self.tounityLewisEddyDiffusivity).2.coeffDict_.lookup "Le" with
          | none => simp [h1, h2, h3] at h
          | some c =>
            simp [h1, h2, h3] at h
            exact h.1

/-- C9 at a reload that brings `Sct = 0.9`: `read()` returns true and the
coefficients are those of the merged dictionary. -/
theorem read_mirrors_base_witness :
    (uniformState ℚ 1 1e-5 1 0 0.7 0 1).read (baseReadFrom true [("Sct", 0.9)])
      = some (true,
          { tounityLewisEddyDiffusivity :=
              (baseReadFrom true [("Sct", 0.9)]
                (uniformState ℚ 1 1e-5 1 0 0.7 0 1).tounityLewisEddyDiffusivity).2,
            Sct_ := 0.9, alpha_u_ := 1e-5, Le_ := 1 }) :=
  (read_mirrors_base (baseReadFrom true [("Sct", 0.9)]) (uniformState ℚ 1 1e-5 1 0 0.7 0 1)).2.1
    0.9 1e-5 1 rfl rfl rfl rfl

/-- C10, the claim refuted: a coefficient dictionary that holds `Sct`, `alpha_u`
and `Le` and no `Prt`; the base class, built without a default for `Prt`, fails,
and so does the constructor. -/
theorem New_fails_without_Prt :
    dictionary.lookup [("Sct", (0.7 : ℚ)), ("alpha_u", 1e-5), ("Le", 1)] "Sct" = some 0.7
    ∧ dictionary.lookup [("Sct", (0.7 : ℚ)), ("alpha_u", 1e-5), ("Le", 1)] "alpha_u" = some 1e-5
    ∧ dictionary.lookup [("Sct", (0.7 : ℚ)), ("alpha_u", 1e-5), ("Le", 1)] "Le" = some 1
    ∧ nonUnityLewisViscosityETFCDiffusivity.New
        (baseNewFrom [("Sct", (0.7 : ℚ)), ("alpha_u", 1e-5), ("Le", 1)])
        (uniformState ℚ 1 1e-5 1 0 0.7 0 1).momentumTransport
        (uniformState ℚ 1 1e-5 1 0 0.7 0 1).thermo = none :=
  ⟨rfl, rfl, rfl, rfl⟩

/-- C10, amended: the constructor fails when the base class does or when any of
`Sct`, `alpha_u`, `Le` is missing from the coefficient dictionary; it succeeds
when the base class is built and all three are present; a model it returns
holds the three values of its dictionary; and the dictionary of the usage
example, with `Prt` and `Sct` only, builds no model. -/
theorem New_requires_coefficients [LinearOrderedField α]
    (baseNew : String → momentumTransportModel α → thermoModel α → Bool →
      Option (unityLewisEddyDiffusivity α))
    (momentumTransport : momentumTransportModel α) (thermo : thermoModel α) :
    (baseNew nonUnityLewisViscosityETFCDiffusivity.typeName momentumTransport thermo false
        = none →
      nonUnityLewisViscosityETFCDiffusivity.New baseNew momentumTransport thermo = none)
    ∧ (∀ base : unityLewisEddyDiffusivity α,
        baseNew nonUnityLewisViscosityETFCDiffusivity.typeName momentumTransport thermo false
          = some base →
        (base.coeffDict_.lookup "Sct" = none ∨ base.coeffDict_.lookup "alpha_u" = none
          ∨ base.coeffDict_.lookup "Le" = none) →
        nonUnityLewisViscosityETFCDiffusivity.New baseNew momentumTransport thermo = none)
    ∧ (∀ (base : unityLewisEddyDiffusivity α) (Sct alpha_u Le : α),
        baseNew nonUnityLewisViscosityETFCDiffusivity.typeName momentumTransport thermo false
          = some base →
        base.coeffDict_.lookup "Sct" = some Sct →
        base.coeffDict_.lookup "alpha_u" = some alpha_u →
        base.coeffDict_.lookup "Le" = some Le →
        nonUnityLewisViscosityETFCDiffusivity.New baseNew momentumTransport thermo
          = some { tounityLewisEddyDiffusivity := base, Sct_ := Sct, alpha_u_ := alpha_u,
                   Le_ := Le })
    ∧ (∀ model : nonUnityLewisViscosityETFCDiffusivity α,
        nonUnityLewisViscosityETFCDiffusivity.New baseNew momentumTransport thermo = some model →
        model.coeffDict_.lookup "Sct" = some model.Sct_
        ∧ model.coeffDict_.lookup "alpha_u" = some model.alpha_u_
        ∧ model.coeffDict_.lookup "Le" = some model.Le_)
    ∧ nonUnityLewisViscosityETFCDiffusivity.New
        (baseNewFrom [("Prt", (0.85 : α)), ("Sct", 0.7)]) momentumTransport thermo = none := by
  refine ⟨?_, ?_, ?_, ?_, ?_⟩
  · intro h
    unfold nonUnityLewisViscosityETFCDiffusivity.New
    rw [h]
    rfl
  · intro base hbase hmiss
    rw [New_of_base baseNew momentumTransport thermo base hbase]
    rcases hmiss with h | h | h
    · rw [h]; rfl
    · rw [h]
      cases base.coeffDict_.lookup "Sct" <;> rfl
    · rw [h]
      cases base.coeffDict_.lookup "Sct" <;> cases base.coeffDict_.lookup "alpha_u" <;> rfl
  · intro base Sct alpha_u Le hbase hSct hau hLe
    rw [New_of_base baseNew momentumTransport thermo base hbase, hSct, hau, hLe]
    rfl
  · intro model hmodel
    cases hbase : baseNew nonUnityLewisViscosityETFCDiffusivity.typeName momentumTransport
        thermo false with
    | none =>
      unfold nonUnityLewisViscosityETFCDiffusivity.New at hmodel
      rw [hbase] at hmodel
      exact absurd hmodel (by simp)
    | some base =>
      rw [New_of_base baseNew momentumTransport thermo base hbase] at hmodel
      cases h1 : base.coeffDict_.lookup "Sct" with
      | none => rw [h1] at hmodel; exact absurd hmodel (by simp)
      | some a =>
        cases h2 : base.coeffDict_.lookup "alpha_u" with
        | none => rw [h1, h2] at hmodel; exact absurd hmodel (by simp)
        | some b =>
          cases h3 : base.coeffDict_.lookup "Le" with
          | none => rw [h1, h2, h3] at hmodel; exact absurd hmodel (by simp)
          | some c =>
            rw [h1, h2, h3] at hmodel
            have hm := Option.some.inj hmodel
            subst hm
            exact ⟨h1, h2, h3⟩
  · rfl

/-- C10, amended, at a dictionary that holds `Prt`, `Sct`, `alpha_u` and `Le`:
the constructor returns the model with the three values. -/
theorem New_requires_coefficients_witness :
    nonUnityLewisViscosityETFCDiffusivity.New
        (baseNewFrom [("Prt", (0.85 : ℚ)), ("Sct", 0.7), ("alpha_u", 1e-5), ("Le", 1)])
        (uniformState ℚ 1 1e-5 1 0 0.7 0 1).momentumTransport
        (uniformState ℚ 1 1e-5 1 0 0.7 0 1).thermo
      = some
          { coeffDict_ := [("Prt", 0.85), ("Sct", 0.7), ("alpha_u", 1e-5), ("Le", 1)]
            Prt_ := 0.85
            momentumTransport := (uniformState ℚ 1 1e-5 1 0 0.7 0 1).momentumTransport
            thermo := (uniformState ℚ 1 1e-5 1 0 0.7 0 1).thermo
            alpha := volScalarField.uniform 1
            kappaEff := volScalarField.uniform 1
            alphaEff := volScalarField.uniform 1
            Sct_ := 0.7
            alpha_u_ := 1e-5
            Le_ := 1 } :=
  (New_requires_coefficients
    (baseNewFrom [("Prt", (0.85 : ℚ)), ("Sct", 0.7), ("alpha_u", 1e-5), ("Le", 1)])
    (uniformState ℚ 1 1e-5 1 0 0.7 0 1).momentumTransport
    (uniformState ℚ 1 1e-5 1 0 0.7 0 1).thermo).2.2.1 _ 0.7 1e-5 1 rfl rfl rfl rfl

/-- A model the constructor returns holds, for each coefficient, the value its
coefficient dictionary gives. -/
theorem New_lookup
    (baseNew : String → momentumTransportModel α → thermoModel α → Bool →
      Option (unityLewisEddyDiffusivity α))
    (momentumTransport : momentumTransportModel α) (thermo : thermoModel α)
    (model : nonUnityLewisViscosityETFCDiffusivity α)
    (hmodel : nonUnityLewisViscosityETFCDiffusivity.New baseNew momentumTransport thermo
      = some model) :
    model.coeffDict_.lookup "Sct" = some model.Sct_
    ∧ model.coeffDict_.lookup "alpha_u" = some model.alpha_u_
    ∧ model.coeffDict_.lookup "Le" = some model.Le_ := by
  cases hbase : baseNew nonUnityLewisViscosityETFCDiffusivity.typeName momentumTransport
      thermo false with
  | none =>
    unfold nonUnityLewisViscosityETFCDiffusivity.New at hmodel
    rw [hbase] at hmodel
    exact absurd hmodel (by simp)
  | some base =>
    rw [New_of_base baseNew momentumTransport thermo base hbase] at hmodel
    cases h1 : base.coeffDict_.lookup "Sct" with
    | none => rw [h1] at hmodel; exact absurd hmodel (by simp)
    | some a =>
      cases h2 : base.coeffDict_.lookup "alpha_u" with
      | none => rw [h1, h2] at hmodel; exact absurd hmodel (by simp)
      | some b =>
        cases h3 : base.coeffDict_.lookup "Le" with
        | none => rw [h1, h2, h3] at hmodel; exact absurd hmodel (by simp)
        | some c =>
          rw [h1, h2, h3] at hmodel
          have hm := Option.some.inj hmodel
          subst hm
          exact ⟨h1, h2, h3⟩

/-- After a `read()` that returns true the model holds, for each coefficient,
the value its coefficient dictionary gives. -/
theorem read_lookup
    (baseRead : unityLewisEddyDiffusivity α → Bool × unityLewisEddyDiffusivity α)
    (self next : nonUnityLewisViscosityETFCDiffusivity α)
    (hread : self.read baseRead = some (true, next)) :
    next.coeffDict_.lookup "Sct" = some next.Sct_
    ∧ next.coeffDict_.lookup "alpha_u" = some next.alpha_u_
    ∧ next.coeffDict_.lookup "Le" = some next.Le_ := by
  unfold nonUnityLewisViscosityETFCDiffusivity.read at hread
  cases hb : (baseRead self.tounityLewisEddyDiffusivity).1
  · simp only [hb] at hread
    have h2 := congrArg Prod.fst (Option.some.inj hread)
    exact absurd h2 (by simp)
  · simp only [hb, if_true] at hread
    cases h1 : (baseRead self.tounityLewisEddyDiffusivity).2.coeffDict_.lookup "Sct" with
    | none => simp [h1] at hread
    | some a =>
      cases h2 : (baseRead self.tounityLewisEddyDiffusivity).2.coeffDict_.lookup "alpha_u" with
      | none => simp [h1, h2] at hread
      | some b =>
        cases h3 : (baseRead self.tounityLewisEddyDiffusivity).2.coeffDict_.lookup "Le" with
        | none => simp [h1, h2, h3] at hread
        | some c =>
          simp only [h1, h2, h3, Option.bind_eq_bind, Option.some_bind, Option.pure_def,
            Option.some.injEq, Prod.mk.injEq, true_and] at hread
          subst hread
          exact ⟨h1, h2, h3⟩

/-- C11, the claim refuted: from a dictionary with `Sct = 0`, `alpha_u = -1` and
`Le = 0` the constructor returns a model, and a `read()` that brings these values
returns true; in both models the three coefficients are not all positive. -/
theorem coefficients_not_positive :
    (∃ model : nonUnityLewisViscosityETFCDiffusivity ℚ,
        nonUnityLewisViscosityETFCDiffusivity.New
            (baseNewFrom [("Prt", (0.85 : ℚ)), ("Sct", 0), ("alpha_u", -1), ("Le", 0)])
            (uniformState ℚ 1 1e-5 1 0 0.7 0 1).momentumTransport
            (uniformState ℚ 1 1e-5 1 0 0.7 0 1).thermo = some model
        ∧ ¬ (0 < model.Sct_ ∧ 0 < model.alpha_u_ ∧ 0 < model.Le_))
    ∧ (∃ next : nonUnityLewisViscosityETFCDiffusivity ℚ,
        (uniformState ℚ 1 1e-5 1 0 0.7 0 1).read
            (baseReadFrom true [("Sct", 0), ("alpha_u", -1), ("Le", 0)]) = some (true, next)
        ∧ ¬ (0 < next.Sct_ ∧ 0 < next.alpha_u_ ∧ 0 < next.Le_)) := by
  refine ⟨⟨_, rfl, ?_⟩, ⟨_, rfl, ?_⟩⟩
  · intro h
    exact lt_irrefl (0 : ℚ) h.1
  · intro h
    exact lt_irrefl (0 : ℚ) h.1

/-- C11, amended: after every successful construction and after every `read()`
that returns true, `Sct_`, `alpha_u_` and `Le_` are the values the coefficient
dictionary gives for them, whatever their sign; they are strictly positive when
those values are. -/
theorem coefficients_are_dictionary_values [LinearOrderedField α]
    (baseNew : String → momentumTransportModel α → thermoModel α → Bool →
      Option (unityLewisEddyDiffusivity α))
    (momentumTransport : momentumTransportModel α) (thermo : thermoModel α)
    (baseRead : unityLewisEddyDiffusivity α → Bool × unityLewisEddyDiffusivity α)
    (self : nonUnityLewisViscosityETFCDiffusivity α) :
    (∀ model : nonUnityLewisViscosityETFCDiffusivity α,
        nonUnityLewisViscosityETFCDiffusivity.New baseNew momentumTransport thermo = some model →
        (model.coeffDict_.lookup "Sct" = some model.Sct_
          ∧ model.coeffDict_.lookup "alpha_u" = some model.alpha_u_
          ∧ model.coeffDict_.lookup "Le" = some model.Le_)
        ∧ ∀ Sct alpha_u Le : α,
            model.coeffDict_.lookup "Sct" = some Sct →
            model.coeffDict_.lookup "alpha_u" = some alpha_u →
            model.coeffDict_.lookup "Le" = some Le →
            0 < Sct → 0 < alpha_u → 0 < Le →
            0 < model.Sct_ ∧ 0 < model.alpha_u_ ∧ 0 < model.Le_)
    ∧ (∀ next : nonUnityLewisViscosityETFCDiffusivity α,
        self.read baseRead = some (true, next) →
        (next.coeffDict_.lookup "Sct" = some next.Sct_
          ∧ next.coeffDict_.lookup "alpha_u" = some next.alpha_u_
          ∧ next.coeffDict_.lookup "Le" = some next.Le_)
        ∧ ∀ Sct alpha_u Le : α,
            next.coeffDict_.lookup "Sct" = some Sct →
            next.coeffDict_.lookup "alpha_u" = some alpha_u →
            next.coeffDict_.lookup "Le" = some Le →
            0 < Sct → 0 < alpha_u → 0 < Le →
            0 < next.Sct_ ∧ 0 < next.alpha_u_ ∧ 0 < next.Le_) := by
  constructor
  · intro model hmodel
    have h := New_lookup baseNew momentumTransport thermo model hmodel
    refine ⟨h, ?_⟩
    intro Sct alpha_u Le h1 h2 h3 p1 p2 p3
    rw [h.1] at h1
    rw [h.2.1] at h2
    rw [h.2.2] at h3
    rw [Option.some.inj h1, Option.some.inj h2, Option.some.inj h3]
    exact ⟨p1, p2, p3⟩
  · intro next hread
    have h := read_lookup baseRead self next hread
    refine ⟨h, ?_⟩
    intro Sct alpha_u Le h1 h2 h3 p1 p2 p3
    rw [h.1] at h1
    rw [h.2.1] at h2
    rw [h.2.2] at h3
    rw [Option.some.inj h1, Option.some.inj h2, Option.some.inj h3]
    exact ⟨p1, p2, p3⟩

/-- C11, amended, at a dictionary with positive values: the model the
constructor returns has positive coefficients. -/
theorem coefficients_are_dictionary_values_witness :
    nonUnityLewisViscosityETFCDiffusivity.New
        (baseNewFrom [("Prt", (0.85 : ℚ)), ("Sct", 0.7), ("alpha_u", 1e-5), ("Le", 1)])
        (uniformState ℚ 1 1e-5 1 0 0.7 0 1).momentumTransport
        (uniformState ℚ 1 1e-5 1 0 0.7 0 1).thermo
      = some
          { coeffDict_ := [("Prt", 0.85), ("Sct", 0.7), ("alpha_u", 1e-5), ("Le", 1)]
            Prt_ := 0.85
            momentumTransport := (uniformState ℚ 1 1e-5 1 0 0.7 0 1).momentumTransport
            thermo := (uniformState ℚ 1 1e-5 1 0 0.7 0 1).thermo
            alpha := volScalarField.uniform 1
            kappaEff := volScalarField.uniform 1
            alphaEff := volScalarField.uniform 1
            Sct_ := 0.7
            alpha_u_ := 1e-5
            Le_ := 1 }
    ∧ (0 : ℚ) < 0.7 ∧ (0 : ℚ) < 1e-5 ∧ (0 : ℚ) < 1 :=
  ⟨rfl,
    ((coefficients_are_dictionary_values
      (baseNewFrom [("Prt", (0.85 : ℚ)), ("Sct", 0.7), ("alpha_u", 1e-5), ("Le", 1)])
      (uniformState ℚ 1 1e-5 1 0 0.7 0 1).momentumTransport
      (uniformState ℚ 1 1e-5 1 0 0.7 0 1).thermo
      (baseReadFrom false []) (uniformState ℚ 1 1e-5 1 0 0.7 0 1)).1 _ rfl).2
      0.7 1e-5 1 rfl rfl rfl (by norm_num) (by norm_num) (by norm_num)⟩

end Lifecycle

/-! ## Dimensions of the closure and of the heat flux -/

section Dimensions

open nonUnityLewisViscosityETFCDiffusivity

/-- With species enthalpies in J/kg and dimensionless mass fractions, `hGradY`
is in J/(kg m) after any number of passes of the species loop. -/
theorem hGradYDimensions_eq (n : Nat) :
    hGradYDimensions (dimEnergy / dimMass) dimless n = some (dimEnergy / dimMass / dimLength) := by
  induction n with
  | zero => rfl
  | succ n ih =>
    rw [hGradYDimensions, ih]
    rfl

/-- C12: with `Sct` and `Le` dimensionless, `alpha_u` and `nut` in m^2/s, `k`
in m^2/s^2, `tau` in s and `rho` in kg/m^3, the argument of `max(., SMALL)` is
dimensionless, `alpha_u/Le` and `nut/Sct` have the same dimension, `DEff` is in
kg/(m s), and in `q()` the species term (with `hGradY` in J/(kg m)) and the
Fourier term are both in W/m^2, so that `q()` is well-formed and in W/m^2 for
every number of species. -/
theorem closure_dimensions :
    SctDimensions = dimless ∧ LeDimensions = dimless ∧ alpha_uDimensions = dimViscosity
    ∧ maxArgDimensions dimViscosity (dimViscosity / dimTime) dimTime = dimless
    ∧ alpha_uDimensions / LeDimensions = dimViscosity / SctDimensions
    ∧ DEffDimensions dimDensity dimViscosity (dimViscosity / dimTime) dimTime
        = some ⟨1, -1, -1, 0, 0, 0, 0⟩
    ∧ speciesTermDimensions dimless ⟨1, -1, -1, 0, 0, 0, 0⟩ (dimEnergy / dimMass / dimLength)
        = dimPower / (dimLength * dimLength)
    ∧ fourierTermDimensions dimless (dimPower / (dimLength * dimTemperature)) dimTemperature
        = dimPower / (dimLength * dimLength)
    ∧ ∀ nSpecies : Nat,
        qDimensions dimless (dimPower / (dimLength * dimTemperature)) dimTemperature
            (dimEnergy / dimMass) dimless dimDensity dimViscosity (dimViscosity / dimTime)
            dimTime nSpecies
          = some (dimPower / (dimLength * dimLength)) := by
  refine ⟨rfl, rfl, by decide, by decide, by decide, by decide, by decide, by decide, ?_⟩
  intro nSpecies
  unfold qDimensions
  by_cases h : nSpecies = 0
  · simp only [h, ne_eq, not_true_eq_false, if_false]
    rfl
  · simp only [h, ne_eq, not_false_eq_true, if_true, hGradYDimensions_eq]
    decide

end Dimensions

/-! ## Bounds and monotonicity of the closure -/

/-- The eddy term `nut / Sct (1 - exp (-1 / max (1.5 nut / (Sct k tau)) SMALL))` is
non-negative, at most `nut / Sct` and at most `k tau / 1.5`. -/
theorem eddy_bounds (SMALL nut Sct k tau : ℝ) (hSMALL : 0 < SMALL) (hnut : 0 ≤ nut)
    (hSct : 0 < Sct) (hk : 0 < k) (htau : 0 < tau) :
    0 ≤ nut / Sct * (1 - Real.exp (-1 / max (1.5 * nut / (Sct * k * tau)) SMALL))
    ∧ nut / Sct * (1 - Real.exp (-1 / max (1.5 * nut / (Sct * k * tau)) SMALL)) ≤ nut / Sct
    ∧ nut / Sct * (1 - Real.exp (-1 / max (1.5 * nut / (Sct * k * tau)) SMALL))
        ≤ k * tau / 1.5 := by
  have hF := factor_mem_Ioo SMALL (1.5 * nut / (Sct * k * tau)) hSMALL
  have hns : 0 ≤ nut / Sct := div_nonneg hnut hSct.le
  have hc : 0 < Sct * k * tau := by positivity
  refine ⟨mul_nonneg hns hF.1.le, ?_, ?_⟩
  · calc nut / Sct * (1 - Real.exp (-1 / max (1.5 * nut / (Sct * k * tau)) SMALL))
        ≤ nut / Sct * 1 := mul_le_mul_of_nonneg_left hF.2.le hns
      _ = nut / Sct := mul_one _
  · rcases eq_or_lt_of_le hnut with h0 | hpos
    · rw [← h0]
      simp only [zero_div, zero_mul]
      positivity
    · have hx : 0 < 1.5 * nut / (Sct * k * tau) := by positivity
      have hM : 1.5 * nut / (Sct * k * tau) ≤ max (1.5 * nut / (Sct * k * tau)) SMALL :=
        le_max_left _ _
      have hMpos : 0 < max (1.5 * nut / (Sct * k * tau)) SMALL := lt_of_lt_of_le hx hM
      have h1 : 1 - Real.exp (-1 / max (1.5 * nut / (Sct * k * tau)) SMALL)
          ≤ 1 / max (1.5 * nut / (Sct * k * tau)) SMALL := by
        have h := one_sub_exp_neg_le (1 / max (1.5 * nut / (Sct * k * tau)) SMALL)
        rwa [← neg_div] at h
      have h2 : 1 / max (1.5 * nut / (Sct * k * tau)) SMALL
          ≤ 1 / (1.5 * nut / (Sct * k * tau)) :=
        one_div_le_one_div_of_le hx hM
      have h3 : nut / Sct * (1 / (1.5 * nut / (Sct * k * tau))) = k * tau / 1.5 := by
        field_simp
        ring
      calc nut / Sct * (1 - Real.exp (-1 / max (1.5 * nut / (Sct * k * tau)) SMALL))
          ≤ nut / Sct * (1 / (1.5 * nut / (Sct * k * tau))) :=
            mul_le_mul_of_nonneg_left (h1.trans h2) hns
        _ = k * tau / 1.5 := h3

/-- C13: for `rho ≥ 0`, `nut ≥ 0` and positive `Sct`, `Le`, `k`, `tau` (and a
positive floor `SMALL`), `rho alpha_u / Le ≤ DEff`,
`DEff ≤ rho (alpha_u / Le + min (nut / Sct) (k tau / 1.5))`, and hence
`DEff ≤ rho (alpha_u / Le + (2/3) k tau)` however large `nut` is. -/
theorem DEff_bounds (SMALL : ℝ) (self : nonUnityLewisViscosityETFCDiffusivity ℝ)
    (Yi : volScalarField ℝ) (celli : Nat) (hSMALL : 0 < SMALL)
    (hrho : 0 ≤ self.thermo.rho.internalField.val celli)
    (hnut : 0 ≤ self.momentumTransport.nut.internalField.val celli)
    (hSct : 0 < self.Sct_) (_hLe : 0 < self.Le_)
    (hk : 0 < self.momentumTransport.k.internalField.val celli)
    (htau : 0 < self.momentumTransport.time) :
    self.thermo.rho.internalField.val celli * self.alpha_u_ / self.Le_
        ≤ (self.DEff Real.exp SMALL Yi).internalField.val celli
    ∧ (self.DEff Real.exp SMALL Yi).internalField.val celli
        ≤ self.thermo.rho.internalField.val celli * (self.alpha_u_ / self.Le_
            + min (self.momentumTransport.nut.internalField.val celli / self.Sct_)
                (self.momentumTransport.k.internalField.val celli
                  * self.momentumTransport.time / 1.5))
    ∧ (self.DEff Real.exp SMALL Yi).internalField.val celli
        ≤ self.thermo.rho.internalField.val celli * (self.alpha_u_ / self.Le_
            + 2 / 3 * self.momentumTransport.k.internalField.val celli
                * self.momentumTransport.time) := by
  have hE := eddy_bounds SMALL (self.momentumTransport.nut.internalField.val celli) self.Sct_
    (self.momentumTransport.k.internalField.val celli) self.momentumTransport.time
    hSMALL hnut hSct hk htau
  rw [DEff_internalField_val]
  refine ⟨?_, ?_, ?_⟩
  · rw [mul_div_assoc]
    exact mul_le_mul_of_nonneg_left (le_add_of_nonneg_right hE.1) hrho
  · exact mul_le_mul_of_nonneg_left (add_le_add_left (le_min hE.2.1 hE.2.2) _) hrho
  · refine mul_le_mul_of_nonneg_left (add_le_add_left (hE.2.2.trans (le_of_eq ?_)) _) hrho
    ring

/-- C13 at `rho = 1.2`, `alpha_u = 1e-5`, `Le = 1`, `nut = 1000`, `Sct = 0.7`,
`k = 3`, `tau = 2`: `DEff ≤ 1.2 (1e-5 / 1 + (2/3) 3 2)`. -/
theorem DEff_bounds_witness :
    ((uniformState ℝ 1.2 1e-5 1 1000 0.7 3 2).DEff Real.exp 1e-15
        (volScalarField.uniform 0)).internalField.val 0
      ≤ 1.2 * (1e-5 / 1 + 2 / 3 * 3 * 2) :=
  (DEff_bounds 1e-15 (uniformState ℝ 1.2 1e-5 1 1000 0.7 3 2) (volScalarField.uniform 0) 0
    (by norm_num)
    (by norm_num [uniformState, patchState, volScalarField.uniform, scalarField.uniform])
    (by norm_num [uniformState, patchState, volScalarField.uniform, scalarField.uniform])
    (by norm_num [uniformState, patchState])
    (by norm_num [uniformState, patchState])
    (by norm_num [uniformState, patchState, volScalarField.uniform, scalarField.uniform])
    (by norm_num [uniformState, patchState])).2.2

/-- Past the floor the map `m ↦ m (1 - exp (-1 / m))` is non-decreasing: it is a
secant slope of the convex exponential. -/
theorem saturation_mono (m₁ m₂ : ℝ) (h₁ : 0 < m₁) (h₁₂ : m₁ ≤ m₂) :
    m₁ * (1 - Real.exp (-1 / m₁)) ≤ m₂ * (1 - Real.exp (-1 / m₂)) := by
  have h₂ : 0 < m₂ := lt_of_lt_of_le h₁ h₁₂
  have hx : -1 / m₁ ≠ 0 := div_ne_zero (by norm_num) h₁.ne'
  have hy : -1 / m₂ ≠ 0 := div_ne_zero (by norm_num) h₂.ne'
  have hxy : -1 / m₁ ≤ -1 / m₂ := by
    rw [neg_div, neg_div, neg_le_neg_iff]
    exact one_div_le_one_div_of_le h₁ h₁₂
  have h := convexOn_exp.secant_mono (Set.mem_univ (0 : ℝ)) (Set.mem_univ (-1 / m₁))
    (Set.mem_univ (-1 / m₂)) hx hy hxy
  rw [Real.exp_zero, sub_zero, sub_zero] at h
  have e₁ : (Real.exp (-1 / m₁) - 1) / (-1 / m₁) = m₁ * (1 - Real.exp (-1 / m₁)) := by
    field_simp
    ring
  have e₂ : (Real.exp (-1 / m₂) - 1) / (-1 / m₂) = m₂ * (1 - Real.exp (-1 / m₂)) := by
    field_simp
    ring
  rwa [e₁, e₂] at h

/-- The map `x ↦ x (1 - exp (-1 / max x SMALL))` is non-decreasing, across the
floor included. -/
theorem floored_saturation_mono (SMALL x₁ x₂ : ℝ) (hSMALL : 0 < SMALL) (h₁₂ : x₁ ≤ x₂) :
    x₁ * (1 - Real.exp (-1 / max x₁ SMALL)) ≤ x₂ * (1 - Real.exp (-1 / max x₂ SMALL)) := by
  have hF := (factor_mem_Ioo SMALL SMALL hSMALL).1
  rw [max_self] at hF
  rcases le_or_lt x₂ SMALL with h2 | h2
  · rw [max_eq_right (h₁₂.trans h2), max_eq_right h2]
    exact mul_le_mul_of_nonneg_right h₁₂ hF.le
  · rw [max_eq_left h2.le]
    rcases le_or_lt x₁ SMALL with h1 | h1
    · rw [max_eq_right h1]
      calc x₁ * (1 - Real.exp (-1 / SMALL))
          ≤ SMALL * (1 - Real.exp (-1 / SMALL)) := mul_le_mul_of_nonneg_right h1 hF.le
        _ ≤ x₂ * (1 - Real.exp (-1 / x₂)) := saturation_mono SMALL x₂ hSMALL h2.le
    · rw [max_eq_left h1.le]
      exact saturation_mono x₁ x₂ (hSMALL.trans h1) h₁₂

/-- The eddy term is non-decreasing in `nut`. -/
theorem eddy_mono (SMALL Sct k tau nut₁ nut₂ : ℝ) (hSMALL : 0 < SMALL) (hSct : 0 < Sct)
    (hk : 0 < k) (htau : 0 < tau) (h₁₂ : nut₁ ≤ nut₂) :
    nut₁ / Sct * (1 - Real.exp (-1 / max (1.5 * nut₁ / (Sct * k * tau)) SMALL))
      ≤ nut₂ / Sct * (1 - Real.exp (-1 / max (1.5 * nut₂ / (Sct * k * tau)) SMALL)) := by
  have hc : 0 < Sct * k * tau := by positivity
  have hx : 1.5 * nut₁ / (Sct * k * tau) ≤ 1.5 * nut₂ / (Sct * k * tau) := by
    apply div_le_div_of_nonneg_right _ hc.le
    linarith
  have h := floored_saturation_mono SMALL _ _ hSMALL hx
  have hK : 0 ≤ k * tau / 1.5 := by positivity
  have e : ∀ nut F : ℝ,
      nut / Sct * F = k * tau / 1.5 * (1.5 * nut / (Sct * k * tau) * F) := by
    intro nut F
    field_simp
    ring
  rw [e nut₁, e nut₂]
  exact mul_le_mul_of_nonneg_left h hK

/-- In a uniform state `DEff` is a continuous function of `nut`. -/
theorem uniformState_DEff_continuous (SMALL rho alpha_u Le Sct k tau : ℝ)
    (Yi : volScalarField ℝ) (celli : Nat) (hSMALL : 0 < SMALL) :
    Continuous (fun nut : ℝ =>
      ((uniformState ℝ rho alpha_u Le nut Sct k tau).DEff Real.exp SMALL Yi).internalField.val
        celli) := by
  simp only [uniformState_DEff_val]
  have hmax : Continuous (fun nut : ℝ => max (1.5 * nut / (Sct * k * tau)) SMALL) :=
    ((continuous_const.mul continuous_id).div_const _).max continuous_const
  have harg : Continuous (fun nut : ℝ => -1 / max (1.5 * nut / (Sct * k * tau)) SMALL) :=
    continuous_const.div hmax (fun nut => (lt_max_of_lt_right hSMALL).ne')
  have hfac : Continuous
      (fun nut : ℝ => 1 - Real.exp (-1 / max (1.5 * nut / (Sct * k * tau)) SMALL)) :=
    continuous_const.sub (Real.continuous_exp.comp harg)
  exact continuous_const.mul
    (continuous_const.add ((continuous_id.div_const _).mul hfac))

/-- C14: for fixed `rho ≥ 0` and positive `Sct`, `Le`, `alpha_u`, `k`, `tau` (and
a positive floor `SMALL`), `DEff` is non-decreasing in `nut` over all `nut ≥ 0`,
and it is a continuous function of `nut`, in particular at the point
`1.5 nut / (Sct k tau) = SMALL` where the floor switches branch. -/
theorem DEff_monotone_in_nut (SMALL rho alpha_u Le Sct k tau : ℝ) (Yi : volScalarField ℝ)
    (celli : Nat) (hSMALL : 0 < SMALL) (hrho : 0 ≤ rho) (hSct : 0 < Sct) (_hLe : 0 < Le)
    (_hau : 0 < alpha_u) (hk : 0 < k) (htau : 0 < tau) :
    (∀ nut₁ nut₂ : ℝ, 0 ≤ nut₁ → nut₁ ≤ nut₂ →
        ((uniformState ℝ rho alpha_u Le nut₁ Sct k tau).DEff Real.exp SMALL
            Yi).internalField.val celli
          ≤ ((uniformState ℝ rho alpha_u Le nut₂ Sct k tau).DEff Real.exp SMALL
            Yi).internalField.val celli)
    ∧ Continuous (fun nut : ℝ =>
        ((uniformState ℝ rho alpha_u Le nut Sct k tau).DEff Real.exp SMALL Yi).internalField.val
          celli)
    ∧ 1.5 * (SMALL * (Sct * k * tau) / 1.5) / (Sct * k * tau) = SMALL
    ∧ ContinuousAt (fun nut : ℝ =>
        ((uniformState ℝ rho alpha_u Le nut Sct k tau).DEff Real.exp SMALL Yi).internalField.val
          celli) (SMALL * (Sct * k * tau) / 1.5) := by
  have hcont := uniformState_DEff_continuous SMALL rho alpha_u Le Sct k tau Yi celli hSMALL
  refine ⟨?_, hcont, ?_, hcont.continuousAt⟩
  · intro nut₁ nut₂ _ h₁₂
    rw [uniformState_DEff_val, uniformState_DEff_val]
    exact mul_le_mul_of_nonneg_left
      (add_le_add_left (eddy_mono SMALL Sct k tau nut₁ nut₂ hSMALL hSct hk htau h₁₂) _) hrho
  · have hc : Sct * k * tau ≠ 0 := by positivity
    field_simp

/-- C14 at `rho = 1.2`, `alpha_u = 1e-5`, `Le = 1`, `Sct = 0.7`, `k = 3`, `tau = 2`:
`DEff` at `nut = 0` is at most `DEff` at `nut = 5`. -/
theorem DEff_monotone_in_nut_witness :
    ((uniformState ℝ 1.2 1e-5 1 0 0.7 3 2).DEff Real.exp 1e-15
        (volScalarField.uniform 0)).internalField.val 0
      ≤ ((uniformState ℝ 1.2 1e-5 1 5 0.7 3 2).DEff Real.exp 1e-15
        (volScalarField.uniform 0)).internalField.val 0 :=
  (DEff_monotone_in_nut 1e-15 1.2 1e-5 1 0.7 3 2 (volScalarField.uniform 0) 0
    (by norm_num) (by norm_num) (by norm_num) (by norm_num) (by norm_num) (by norm_num)
    (by norm_num)).1 0 5 (le_refl 0) (by norm_num)

end Foam
